import Mathlib

/-!
Verification development for the vendor risk-aggregation engine
(`src/main.py`).  The Python program is shallowly embedded: JSON values
become the inductive type `Val`, Python dicts become insertion-ordered
association lists, machine floats become exact rationals, and statements
that can raise are modelled with `Except` so that a caught exception
leaves exactly the partial state the interpreter would leave.
-/

-- Mathlib marks the kernel-computable `Rat` operations irreducible, which
-- blocks `decide` on concrete scores; restore their reducibility here.
attribute [local semireducible] Rat.mul Rat.add Rat.sub Rat.inv

/-- A parsed JSON value, as handed to the engine by `json.load`.  Object
keys are strings (as they always are for parsed JSON).  Values compare by
structure; Python's cross-type numeric equalities (such as `True == 1`)
are outside the data domain used here. -/
inductive Val where
  | vnull : Val
  | vbool : Bool → Val
  | vnum : Rat → Val
  | vstr : String → Val
  | varr : List Val → Val
  | vobj : List (String × Val) → Val

mutual

/-- Structural equality test for `Val` (the model of Python `==` on parsed
JSON data). -/
def decEqVal : (a b : Val) → Decidable (a = b)
  | .vnull, .vnull => isTrue rfl
  | .vbool x, .vbool y =>
      if h : x = y then isTrue (h ▸ rfl) else isFalse fun he => h (by cases he; rfl)
  | .vnum x, .vnum y =>
      if h : x = y then isTrue (h ▸ rfl) else isFalse fun he => h (by cases he; rfl)
  | .vstr x, .vstr y =>
      if h : x = y then isTrue (h ▸ rfl) else isFalse fun he => h (by cases he; rfl)
  | .varr xs, .varr ys =>
      match decEqValList xs ys with
      | isTrue h => isTrue (h ▸ rfl)
      | isFalse h => isFalse fun he => h (by cases he; rfl)
  | .vobj xs, .vobj ys =>
      match decEqValObj xs ys with
      | isTrue h => isTrue (h ▸ rfl)
      | isFalse h => isFalse fun he => h (by cases he; rfl)
  | .vnull, .vbool _ => isFalse fun h => Val.noConfusion h
  | .vnull, .vnum _ => isFalse fun h => Val.noConfusion h
  | .vnull, .vstr _ => isFalse fun h => Val.noConfusion h
  | .vnull, .varr _ => isFalse fun h => Val.noConfusion h
  | .vnull, .vobj _ => isFalse fun h => Val.noConfusion h
  | .vbool _, .vnull => isFalse fun h => Val.noConfusion h
  | .vbool _, .vnum _ => isFalse fun h => Val.noConfusion h
  | .vbool _, .vstr _ => isFalse fun h => Val.noConfusion h
  | .vbool _, .varr _ => isFalse fun h => Val.noConfusion h
  | .vbool _, .vobj _ => isFalse fun h => Val.noConfusion h
  | .vnum _, .vnull => isFalse fun h => Val.noConfusion h
  | .vnum _, .vbool _ => isFalse fun h => Val.noConfusion h
  | .vnum _, .vstr _ => isFalse fun h => Val.noConfusion h
  | .vnum _, .varr _ => isFalse fun h => Val.noConfusion h
  | .vnum _, .vobj _ => isFalse fun h => Val.noConfusion h
  | .vstr _, .vnull => isFalse fun h => Val.noConfusion h
  | .vstr _, .vbool _ => isFalse fun h => Val.noConfusion h
  | .vstr _, .vnum _ => isFalse fun h => Val.noConfusion h
  | .vstr _, .varr _ => isFalse fun h => Val.noConfusion h
  | .vstr _, .vobj _ => isFalse fun h => Val.noConfusion h
  | .varr _, .vnull => isFalse fun h => Val.noConfusion h
  | .varr _, .vbool _ => isFalse fun h => Val.noConfusion h
  | .varr _, .vnum _ => isFalse fun h => Val.noConfusion h
  | .varr _, .vstr _ => isFalse fun h => Val.noConfusion h
  | .varr _, .vobj _ => isFalse fun h => Val.noConfusion h
  | .vobj _, .vnull => isFalse fun h => Val.noConfusion h
  | .vobj _, .vbool _ => isFalse fun h => Val.noConfusion h
  | .vobj _, .vnum _ => isFalse fun h => Val.noConfusion h
  | .vobj _, .vstr _ => isFalse fun h => Val.noConfusion h
  | .vobj _, .varr _ => isFalse fun h => Val.noConfusion h

/-- Equality test for lists of values. -/
def decEqValList : (xs ys : List Val) → Decidable (xs = ys)
  | [], [] => isTrue rfl
  | [], _ :: _ => isFalse fun h => List.noConfusion h
  | _ :: _, [] => isFalse fun h => List.noConfusion h
  | x :: xs, y :: ys =>
      match decEqVal x y with
      | isFalse h => isFalse fun he => h (by cases he; rfl)
      | isTrue h1 =>
        match decEqValList xs ys with
        | isTrue h2 => isTrue (by rw [h1, h2])
        | isFalse h => isFalse fun he => h (by cases he; rfl)

/-- Equality test for string-keyed object entry lists. -/
def decEqValObj : (xs ys : List (String × Val)) → Decidable (xs = ys)
  | [], [] => isTrue rfl
  | [], _ :: _ => isFalse fun h => List.noConfusion h
  | _ :: _, [] => isFalse fun h => List.noConfusion h
  | (k, x) :: xs, (l, y) :: ys =>
      if hk : k = l then
        match decEqVal x y with
        | isFalse h => isFalse fun he => h (by cases he; rfl)
        | isTrue h1 =>
          match decEqValObj xs ys with
          | isTrue h2 => isTrue (by rw [hk, h1, h2])
          | isFalse h => isFalse fun he => h (by cases he; rfl)
      else isFalse fun he => hk (by cases he; rfl)

end

instance : DecidableEq Val := decEqVal

/-- First-match lookup in an insertion-ordered association list: the model
of `d[k]` / `d.get(k)` on a Python dict (keys are unique in every state the
program builds, so first match is the match). -/
def dget {κ α : Type} [DecidableEq κ] : List (κ × α) → κ → Option α
  | [], _ => none
  | (k, v) :: rest, key => if k = key then some v else dget rest key

/-- Update-or-append on an insertion-ordered association list: the model of
`d[k] = v` on a Python dict (an existing key keeps its position, a new key
is appended). -/
def dset {κ α : Type} [DecidableEq κ] : List (κ × α) → κ → α → List (κ × α)
  | [], key, val => [(key, val)]
  | (k, v) :: rest, key, val =>
      if k = key then (key, val) :: rest else (k, v) :: dset rest key val

/-- Python truthiness (`if not risk_info:`) for the values of `Val`. -/
def truthy : Val → Bool
  | .vnull => false
  | .vbool b => b
  | .vnum q => q != 0
  | .vstr s => s != ""
  | .varr xs => xs != []
  | .vobj kvs => kvs != []

/-- Whether a value may be used as a Python dict key.  Lists and dicts are
unhashable: using one as a key raises `TypeError`. -/
def hashable : Val → Bool
  | .varr _ => false
  | .vobj _ => false
  | _ => true

/-- Round half to even, the tie rule of Python's `round`. -/
def roundHalfEven (x : Rat) : Int :=
  let f : Int := Rat.floor x
  let r : Rat := x - f
  if r < 1/2 then f
  else if 1/2 < r then f + 1
  else if f % 2 = 0 then f else f + 1

/-- The executable `Rat.floor` agrees with Mathlib's `Int.floor` on `ℚ`. -/
theorem ratFloor_eq_intFloor (x : Rat) : Rat.floor x = ⌊x⌋ := by
  rw [Rat.floor_def', ← Rat.floor_def]

/-- Model of `round(x, 2)`: round to two decimal places, ties to even. -/
def round2 (x : Rat) : Rat := (roundHalfEven (x * 100) : Rat) / 100

/-! ## Vendor Record Processor (`process_vendor_data`, `src/main.py` lines 31-86) -/

/-- Diagnostics printed by the engine (`print(...)` calls), kept as data so
theorems can talk about them. -/
inductive Diag where
  | unknownQuestion (q fname : String)
  | itemError (fname : String)
  | vendorError (vendor fname : String)
deriving DecidableEq

/-- One per-question entry of the combined mapping: the dict literal built
at `src/main.py` lines 59-66 (and the `defaultdict` default at lines 32/89). -/
structure Record where
  question : String
  category : Val
  sub_category : Val
  risk_level : Val
  expected_outcome : Val
  answers : List (String × Val)
deriving DecidableEq

/-- The `defaultdict` default record (lines 32 and 89). -/
def emptyRecord : Record :=
  ⟨"", .vstr "", .vstr "", .vstr "", .vstr "", []⟩

/-- Mutable state of the loop in `process_vendor_data` (lines 32-36). -/
structure VState where
  combined : List (String × Record)
  vendorRiskScore : Nat
  maxPossibleScore : Nat
  categoryScores : List (Val × Rat)
  missedControls : List String
  diags : List Diag
deriving DecidableEq

/-- The state before the loop. -/
def initVState : VState := ⟨[], 0, 0, [], [], []⟩

/-- Model of `get_risk_score` (lines 7-8): `{'High': 3, 'Medium': 2,
'Low': 1}.get(risk_level, 0)`.  (The `TypeError` that `.get` raises on an
unhashable argument is modelled at the call site in `stepItem`.) -/
def get_risk_score (risk_level : Val) : Nat :=
  if risk_level = .vstr "High" then 3
  else if risk_level = .vstr "Medium" then 2
  else if risk_level = .vstr "Low" then 1
  else 0

/-- Model of `find_risk_data` (lines 21-28).  A dict taxonomy answers by
key lookup with `{}` as default; a list taxonomy is scanned for an element
whose `Question` field equals the question; any other shape yields `{}`.
An element of a list taxonomy that is not a dict makes `item.get` raise
`AttributeError`, modelled as `.error ()`.  The returned index (second
component in Python) is never used and is dropped. -/
def findInList : List Val → String → Except Unit Val
  | [], _ => .ok (.vobj [])
  | x :: rest, q =>
      match x with
      | .vobj kvs => if dget kvs "Question" = some (.vstr q) then .ok (.vobj kvs) else findInList rest q
      | _ => .error ()

def find_risk_data (risk_data : Val) (question : String) : Except Unit Val :=
  match risk_data with
  | .vobj kvs => .ok ((dget kvs question).getD (.vobj []))
  | .varr xs => findInList xs question
  | _ => .ok (.vobj [])

/-- The synthesized default entry for an unresolved question (lines 52-57),
as the field list of the dict literal. -/
def defaultRiskInfo : List (String × Val) :=
  [("Category", .vstr "Unknown"), ("Sub Category", .vstr "Unknown"),
   ("Risk Level", .vstr "Medium"), ("Expected", .vstr "Yes")]

/-- Model of `risk_info.get(key, default)` once `risk_info` is known to be
a dict. -/
def riGet (kvs : List (String × Val)) (key : String) (default : Val) : Val :=
  (dget kvs key).getD default

/-- Result of normalizing one raw answer item to `(question, answer)`
(lines 42-47): `skip` models the bare `continue` for an item that is
neither a string nor a dict; `err` models an exception (`data[item]` on a
list payload, a missing key, or `.strip()` on a non-string). -/
inductive NormResult where
  | skip
  | err
  | okQA (question : String) (answer : Val)
deriving DecidableEq

/-- Model of `data[item]` for a string item: only a dict payload with the
key present succeeds; a list payload raises `TypeError`, a missing key
`KeyError`. -/
def pySubscript (data : Val) (key : String) : Except Unit Val :=
  match data with
  | .vobj kvs => match dget kvs key with
      | some v => .ok v
      | none => .error ()
  | _ => .error ()

/-- Model of Python's `str.strip()`: drop whitespace from both ends. -/
def pyStrip (s : String) : String :=
  ⟨((s.data.dropWhile Char.isWhitespace).reverse.dropWhile Char.isWhitespace).reverse⟩

/-- Lines 42-47: produce `(question, answer)` from one item.  Note that a
string item looks its answer up in `data` by the unstripped string, and a
dict item whose `Question` value is not a string makes `.strip()` raise. -/
def normItem (data item : Val) : NormResult :=
  match item with
  | .vstr s =>
      match pySubscript data s with
      | .ok a => .okQA (pyStrip s) a
      | .error _ => .err
  | .vobj kvs =>
      match (dget kvs "Question").getD (.vstr "") with
      | .vstr s => .okQA (pyStrip s) ((dget kvs "Answer").getD (.vstr ""))
      | _ => .err
  | _ => .skip

/-- Append a diagnostic for a caught per-item exception (lines 75-77). -/
def errOut (fname : String) (s : VState) : VState :=
  {s with diags := s.diags ++ [.itemError fname]}

/-- Add the weighted score to the per-category accumulator
(`category_scores[...] += risk_score`, line 71, a `defaultdict(float)`). -/
def bumpCat (cs : List (Val × Rat)) (cat : Val) (rs : Nat) : List (Val × Rat) :=
  dset cs cat ((dget cs cat).getD 0 + rs)

/-- The scored record stored for a question (the dict literal of lines
59-66) built from a resolved (or synthesized) entry `kvs`. -/
def mkScored (kvs : List (String × Val)) (question vendor : String) (answer : Val) : Record :=
  ⟨question, riGet kvs "Category" (.vstr "Unknown"),
   riGet kvs "Sub Category" (.vstr "Unknown"),
   riGet kvs "Risk Level" (.vstr "Medium"),
   riGet kvs "Expected" (.vstr "Yes"),
   [(vendor, answer)]⟩

/-- Lines 59-74, once `risk_info` is a dict with fields `kvs`: store the
scored record, then accumulate the weighted score.  The two `errOut` exits
model the `TypeError` of hashing an unhashable risk level (inside
`get_risk_score`'s `.get`, line 68) and of keying `category_scores` by an
unhashable category (line 71) — the latter fires after line 70 already
raised `vendor_risk_score`. -/
def scoreItem (kvs : List (String × Val)) (question : String) (answer : Val)
    (vendor fname : String) (s1 : VState) : VState :=
  let s2 := {s1 with combined := dset s1.combined question (mkScored kvs question vendor answer)}
  let rl := riGet kvs "Risk Level" (.vstr "Medium")
  if hashable rl = false then errOut fname s2
  else
    let rs := get_risk_score rl
    if answer ≠ riGet kvs "Expected" (.vstr "Yes") then
      let s3 := {s2 with vendorRiskScore := s2.vendorRiskScore + rs}
      let cat := riGet kvs "Category" (.vstr "Unknown")
      if hashable cat = false then errOut fname s3
      else
        let s4 := {s3 with categoryScores := bumpCat s3.categoryScores cat rs,
                           missedControls := s3.missedControls ++ [question]}
        {s4 with maxPossibleScore := s4.maxPossibleScore + rs}
    else {s2 with maxPossibleScore := s2.maxPossibleScore + rs}

/-- One iteration of the loop body of `process_vendor_data` (lines 40-77).
The `try`/`except` catches any exception and keeps whatever part of the
state was already mutated, so each fallible Python statement is mirrored by
an `errOut` exit that preserves the mutations made before it.  An
unresolved question (falsy lookup result) warns and scores against the
synthesized default entry; a truthy non-dict entry makes `.get` raise at
line 61 before any mutation. -/
def stepItem (data risk_data : Val) (vendor fname : String) (s : VState) (item : Val) : VState :=
  match normItem data item with
  | .skip => s
  | .err => errOut fname s
  | .okQA question answer =>
    match find_risk_data risk_data question with
    | .error _ => errOut fname s
    | .ok ri0 =>
      if truthy ri0 then
        match ri0 with
        | .vobj kvs => scoreItem kvs question answer vendor fname s
        | _ => errOut fname s
      else
        scoreItem defaultRiskInfo question answer vendor fname
          {s with diags := s.diags ++ [.unknownQuestion question fname]}

/-- Line 38: a list payload is iterated, a dict payload is wrapped in a
one-element list, anything else yields no items. -/
def itemsOf (data : Val) : List Val :=
  match data with
  | .varr xs => xs
  | .vobj kvs => [.vobj kvs]
  | _ => []

/-- The whole loop of `process_vendor_data` (lines 40-77). -/
def vendorFold (data risk_data : Val) (vendor fname : String) : VState :=
  (itemsOf data).foldl (stepItem data risk_data vendor fname) initVState

/-- The value returned by `process_vendor_data` (lines 79-86). -/
structure VendorResult where
  combined_data : List (String × Record)
  vendor_risk_score : Rat
  category_scores : List (Val × Rat)
  missed_controls : List String
  diags : List Diag
deriving DecidableEq

/-- Model of `process_vendor_data` (lines 31-86). -/
def process_vendor_data (data risk_data : Val) (vendor fname : String) : VendorResult :=
  let s := vendorFold data risk_data vendor fname
  let pct : Rat :=
    if s.maxPossibleScore > 0
    then ((s.vendorRiskScore : Rat) / (s.maxPossibleScore : Rat)) * 100
    else 0
  ⟨s.combined, round2 pct, s.categoryScores, s.missedControls, s.diags⟩

/-! ## Aggregator (`combine_json_files_with_scores`, lines 88-130)

The Python accumulator is one `defaultdict` mixing per-question records
with three bucket keys inserted first (`system_risk_scores`,
`category_scores`, `missed_controls_frequency`).  The embedding keeps the
records and the three buckets as separate fields and models each statement
of the fold against the bucket a colliding question key would actually
hit. -/

/-- A slot of the `category_scores` bucket: normally a vendor's per-category
map (a `defaultdict(float)`, values numeric), but a question named
`category_scores` writes raw values into the bucket (see `mergeKey`). -/
inductive CatsEntry where
  | cmap : List (Val × Val) → CatsEntry
  | raw : Val → CatsEntry
deriving DecidableEq

/-- Convert a vendor's per-category accumulator to a stored bucket slot. -/
def toCmap (cs : List (Val × Rat)) : CatsEntry :=
  .cmap (cs.map fun p => (p.1, .vnum p.2))

/-- The Aggregator's accumulator (lines 89-92). -/
structure CState where
  records : List (String × Record)
  system_risk_scores : List (String × Rat)
  category_scores : List (String × CatsEntry)
  missed_controls_frequency : List (String × Nat)
  diags : List Diag
deriving DecidableEq

/-- The accumulator before any vendor is folded in. -/
def initCState : CState := ⟨[], [], [], [], []⟩

/-- Fold one key of a vendor's result into the accumulator (the body of
the loop at lines 114-120).  `.error` models an uncaught exception
escaping to the `except` at line 127 with the mutations made so far.

Statement order of line 115 (`combined_data[key]['answers'][vendor] =
result['combined_data'][key]['answers'][vendor]`): the right-hand side is
evaluated first (`KeyError` if the vendor's own answer is missing — never
the case for `process_vendor_data` output), then the left-hand target is
resolved:
  * key `system_risk_scores`: the bucket is the plain scores dict; its
    `answers` item is missing (`KeyError`) or, for a vendor literally
    named `answers`, a float (`TypeError`) — it raises either way, before
    any mutation;
  * key `category_scores`: the bucket is a `defaultdict`, so the `answers`
    slot is created (or updated) and lines 116-120 then overwrite the
    `question`/`category`/... slots of the bucket with raw values — no
    exception, the bucket is silently corrupted;
  * key `missed_controls_frequency`: the bucket is a `defaultdict(int)`,
    so a zero `answers` slot is created if absent and the item assignment
    on the returned `int` raises `TypeError`;
  * any other key: the record is created from the default if absent, this
    vendor's answer is merged into its `answers` dict, and the taxonomy
    fields are overwritten. -/
def mergeKey (vendor : String) (s : CState) (kv : String × Record) : Except CState CState :=
  match dget kv.2.answers vendor with
  | none => .error s
  | some a =>
    if kv.1 = "system_risk_scores" then .error s
    else if kv.1 = "category_scores" then
      match (dget s.category_scores "answers").getD (.cmap []) with
      | .cmap m =>
        let cats1 := dset s.category_scores "answers" (.cmap (dset m (.vstr vendor) a))
        let r := kv.2
        let cats2 := dset cats1 "question" (.raw (.vstr r.question))
        let cats3 := dset cats2 "category" (.raw r.category)
        let cats4 := dset cats3 "sub_category" (.raw r.sub_category)
        let cats5 := dset cats4 "risk_level" (.raw r.risk_level)
        let cats6 := dset cats5 "expected_outcome" (.raw r.expected_outcome)
        .ok {s with category_scores := cats6}
      | .raw _ => .error s
    else if kv.1 = "missed_controls_frequency" then
      let mcf1 :=
        if (dget s.missed_controls_frequency "answers").isSome
        then s.missed_controls_frequency
        else dset s.missed_controls_frequency "answers" 0
      .error {s with missed_controls_frequency := mcf1}
    else
      let cur := (dget s.records kv.1).getD emptyRecord
      .ok {s with records := dset s.records kv.1 {kv.2 with answers := dset cur.answers vendor a}}

/-- Fold all keys of a vendor's result, stopping at the first exception
(lines 114-120). -/
def mergeKeys (vendor : String) : CState → List (String × Record) → Except CState CState
  | s, [] => .ok s
  | s, kv :: rest =>
      match mergeKey vendor s kv with
      | .ok s1 => mergeKeys vendor s1 rest
      | .error s1 => .error s1

/-- Line 126: `combined_data['missed_controls_frequency'][control] += 1`
on a `defaultdict(int)`. -/
def bumpMcf (mcf : List (String × Nat)) (q : String) : List (String × Nat) :=
  dset mcf q ((dget mcf q).getD 0 + 1)

/-- Process one vendor source and fold its result into the accumulator
(the `try` block at lines 112-128).  An exception inside the fold is caught
at line 127: the partial mutations stay and a diagnostic is printed. -/
def combineStep (risk_data : Val) (s : CState) (src : String × Val) : CState :=
  let vendor := src.1
  let res := process_vendor_data src.2 risk_data vendor vendor
  let s0 := {s with diags := s.diags ++ res.diags}
  match mergeKeys vendor s0 res.combined_data with
  | .error s1 => {s1 with diags := s1.diags ++ [.vendorError vendor vendor]}
  | .ok s1 =>
      {s1 with system_risk_scores := dset s1.system_risk_scores vendor res.vendor_risk_score,
               category_scores := dset s1.category_scores vendor (toCmap res.category_scores),
               missed_controls_frequency := res.missed_controls.foldl bumpMcf s1.missed_controls_frequency}

/-- Model of `combine_json_files_with_scores` (lines 88-130) on
already-parsed sources.  Each source is a pair of the vendor identifier
(the file name without its `.json` extension, also used as the diagnostic
label) and its parsed payload; a file that fails to parse is skipped by
the code before this loop body runs, so it simply does not appear in the
list. -/
def combine_json_files_with_scores (sources : List (String × Val)) (risk_data : Val) : CState :=
  sources.foldl (combineStep risk_data) initCState

/-! ## Metrics Calculator (`calculate_metrics`, lines 132-181) -/

/-- Python's `max(xs, key=g)`: the first element with the maximal key, or
`none` for an empty sequence (where Python raises `ValueError`). -/
def pyMaxBy {α β : Type} [LinearOrder β] (g : α → β) (l : List α) : Option α :=
  l.foldl (fun acc x =>
    match acc with
    | none => some x
    | some b => if g b < g x then some x else some b) none

/-- Python's `min(xs, key=g)`: the first element with the minimal key. -/
def pyMinBy {α β : Type} [LinearOrder β] (g : α → β) (l : List α) : Option α :=
  l.foldl (fun acc x =>
    match acc with
    | none => some x
    | some b => if g x < g b then some x else some b) none

/-- Turn an optional value into the model of an expression that raises on
`none` (`max`/`min` of an empty sequence). -/
def req {α : Type} : Option α → Except Unit α
  | some a => .ok a
  | none => .error ()

/-- Stable insertion keeping larger keys first; equal keys keep their
original relative order, like Python's stable `sorted(..., reverse=True)`. -/
def insertDesc {α β : Type} [LinearOrder β] (g : α → β) (x : α) : List α → List α
  | [] => [x]
  | y :: ys => if g y < g x then x :: y :: ys else y :: insertDesc g x ys

/-- Stable descending sort by key, the model of
`sorted(xs, key=g, reverse=True)`. -/
def sortDesc {α β : Type} [LinearOrder β] (g : α → β) : List α → List α
  | [] => []
  | x :: xs => insertDesc g x (sortDesc g xs)

/-- Append a vendor to `control_scores[question]` (line 144, a
`defaultdict(list)`). -/
def csAppend (cs : List (String × List String)) (q vendor : String) : List (String × List String) :=
  dset cs q ((dget cs q).getD [] ++ [vendor])

/-- The per-question part of the `control_scores` loop (lines 140-144)
applied to the question records: each vendor whose stored answer differs
from the record's expected outcome is appended. -/
def csRecords (records : List (String × Record)) : List (String × List String) :=
  records.foldl (fun acc qr =>
    qr.2.answers.foldl (fun acc2 wa =>
      if wa.2 ≠ qr.2.expected_outcome then csAppend acc2 qr.1 wa.1 else acc2) acc) []

/-- Lines 139-144 build `control_scores` by iterating the WHOLE combined
mapping, the three bucket entries included (each bucket is itself a dict,
so it passes the `isinstance` test and is inspected for an `answers` key):
  * the scores bucket has an `answers` key only when a vendor is literally
    named `answers`; its value is then a float and `.items()` on it raises;
  * the `category_scores` bucket has an `answers` slot only after a
    collision with a question of that name (or an `answers` vendor); an
    empty slot iterates nothing, a non-empty one makes the loop compare and
    append junk — the latter is modelled as a failure and is not reached by
    any state this development evaluates;
  * the frequency bucket has an `answers` key when a control of that name
    was ever missed (or after a collision); its value is an `int` and
    `.items()` on it raises;
  * every question record has an `answers` dict and is scanned normally. -/
def controlScores (cd : CState) : Except Unit (List (String × List String)) :=
  if (dget cd.system_risk_scores "answers").isSome then .error ()
  else match dget cd.category_scores "answers" with
  | some (.cmap []) => mcfGuard cd
  | some _ => .error ()
  | none => mcfGuard cd
where
  mcfGuard (cd : CState) : Except Unit (List (String × List String)) :=
    if (dget cd.missed_controls_frequency "answers").isSome then .error ()
    else .ok (csRecords cd.records)

/-- Collect one vendor's category map into the per-category lists
(lines 154-156, `category_avg_scores[category].append(score)`).  A
non-numeric stored score makes the later `sum(...)` at line 158 raise;
that failure is surfaced here. -/
def catAddVendor : List (Val × List Rat) → List (Val × Val) → Option (List (Val × List Rat))
  | acc, [] => some acc
  | acc, (c, .vnum x) :: rest => catAddVendor (dset acc c ((dget acc c).getD [] ++ [x])) rest
  | _, _ :: _ => none

/-- Lines 153-156: iterate the `category_scores` bucket.  A raw
(non-dict) slot left by a colliding question makes `.items()` raise. -/
def catCollect : List (Val × List Rat) → List (String × CatsEntry) → Except Unit (List (Val × List Rat))
  | acc, [] => .ok acc
  | _, (_, .raw _) :: _ => .error ()
  | acc, (_, .cmap m) :: rest =>
      match catAddVendor acc m with
      | none => .error ()
      | some acc1 => catCollect acc1 rest

/-- The metrics dict returned at lines 165-178. -/
structure Metrics where
  average_risk_score : Rat
  highest_risk_vendor : String
  lowest_risk_vendor : String
  highest_risk_control : Option String
  lowest_risk_control : Option String
  top_5_risks : List String
  top_control_missed : Option String
  top_control_satisfied : Option String
  category_avg_scores : List (Val × Rat)
  top_category_failing : Val
  top_category_passed : Val
  top_5_missed_controls : List (String × Nat)
deriving DecidableEq

/-- The body of the `try` block of `calculate_metrics` (lines 134-178);
`.error ()` models an exception escaping to the handler at line 179. -/
def calcCore (cd : CState) : Except Unit Metrics := do
  let allScores := cd.system_risk_scores.map (·.2)
  let avg : Rat := if allScores.length > 0 then allScores.sum / (allScores.length : Rat) else 0
  -- lines 136-137: `max`/`min` over the vendors raise on an empty dict
  let hv ← req ((pyMaxBy (·.2) cd.system_risk_scores).map (·.1))
  let lv ← req ((pyMinBy (·.2) cd.system_risk_scores).map (·.1))
  let cs ← controlScores cd
  -- lines 146-151: guarded by `if control_scores`, so `none` on empty
  let hrc := (pyMaxBy (fun p => p.2.length) cs).map (·.1)
  let lrc := (pyMinBy (fun p => p.2.length) cs).map (·.1)
  let top5 := ((sortDesc (fun p => p.2.length) cs).take 5).map (·.1)
  let tcm := top5.head?
  let tcs := (pyMinBy (fun p => p.2.length) cs).map (·.1)
  -- lines 153-158: per-category averages
  let cal ← catCollect [] cd.category_scores
  let cavg := cal.map fun p => (p.1, p.2.sum / (p.2.length : Rat))
  -- lines 159-160: UNGUARDED `max`/`min`: an empty average map raises
  let tcf ← req ((pyMaxBy (·.2) cavg).map (·.1))
  let tcp ← req ((pyMinBy (·.2) cavg).map (·.1))
  let t5m := (sortDesc (·.2) cd.missed_controls_frequency).take 5
  pure ⟨round2 avg, hv, lv, hrc, lrc, top5, tcm, tcs, cavg, tcf, tcp, t5m⟩

/-- Model of `calculate_metrics` (lines 132-181): any exception is caught,
a diagnostic is printed, and the empty dict is returned — modelled as
`none`. -/
def calculate_metrics (cd : CState) : Option Metrics :=
  match calcCore cd with
  | .ok m => some m
  | .error _ => none

/-! ## Association-list lemmas -/

theorem dget_dset_self {κ α : Type} [DecidableEq κ] (l : List (κ × α)) (k : κ) (v : α) :
    dget (dset l k v) k = some v := by
  induction l with
  | nil => simp [dget, dset]
  | cons p rest ih =>
      by_cases h : p.1 = k
      · simp [dset, h, dget]
      · simp [dset, h, dget, ih]

theorem dget_dset_ne {κ α : Type} [DecidableEq κ] (l : List (κ × α)) (k k' : κ) (v : α)
    (h : k' ≠ k) : dget (dset l k v) k' = dget l k' := by
  have hk : ¬k = k' := fun he => h he.symm
  induction l with
  | nil => simp [dget, dset, hk]
  | cons p rest ih =>
      by_cases hp : p.1 = k
      · show dget (if p.1 = k then (k, v) :: rest else (p.1, p.2) :: dset rest k v) k' = _
        rw [if_pos hp]
        show (if k = k' then some v else dget rest k') = _
        rw [if_neg hk]
        show _ = (if p.1 = k' then some p.2 else dget rest k')
        rw [if_neg (hp ▸ hk)]
      · show dget (if p.1 = k then (k, v) :: rest else (p.1, p.2) :: dset rest k v) k' = _
        rw [if_neg hp]
        show (if p.1 = k' then some p.2 else dget (dset rest k v) k') = _
        by_cases hp' : p.1 = k'
        · rw [if_pos hp', dget, if_pos hp']
        · rw [if_neg hp', ih, dget, if_neg hp']

theorem dget_dset {κ α : Type} [DecidableEq κ] (l : List (κ × α)) (k k' : κ) (v : α) :
    dget (dset l k v) k' = if k' = k then some v else dget l k' := by
  by_cases h : k' = k
  · subst h; simp [dget_dset_self]
  · simp [h, dget_dset_ne _ _ _ _ h]

/-- The keys of `dset l k v` are the keys of `l` plus possibly `k`. -/
theorem keys_of_dset {κ α : Type} [DecidableEq κ] (l : List (κ × α)) (k : κ) (v : α) (x : κ)
    (hmem : x ∈ (dset l k v).map Prod.fst) : x = k ∨ x ∈ l.map Prod.fst := by
  induction l with
  | nil =>
      simp [dset] at hmem
      exact Or.inl hmem
  | cons p rest ih =>
      obtain ⟨a, b⟩ := p
      by_cases hp : a = k
      · rw [show dset ((a, b) :: rest) k v = (k, v) :: rest from by simp [dset, hp]] at hmem
        simp at hmem
        rcases hmem with h1 | h1
        · exact Or.inl h1
        · exact Or.inr (by simp; exact Or.inr h1)
      · rw [show dset ((a, b) :: rest) k v = (a, b) :: dset rest k v from by
          simp [dset, hp]] at hmem
        simp at hmem
        rcases hmem with h1 | h1
        · exact Or.inr (by simp [h1])
        · rcases ih (by simpa using h1) with h2 | h2
          · exact Or.inl h2
          · exact Or.inr (by simp; exact Or.inr (by simpa using h2))

/-- The keys of an association list are distinct (as every Python dict's
are). -/
def uniqKeys {κ α : Type} (l : List (κ × α)) : Prop := (l.map Prod.fst).Nodup

theorem uniqKeys_nil {κ α : Type} : uniqKeys ([] : List (κ × α)) := by
  simp [uniqKeys]

theorem uniqKeys_dset {κ α : Type} [DecidableEq κ] (l : List (κ × α)) (k : κ) (v : α)
    (h : uniqKeys l) : uniqKeys (dset l k v) := by
  induction l with
  | nil => simp [dset, uniqKeys]
  | cons p rest ih =>
      obtain ⟨a, b⟩ := p
      simp only [uniqKeys, List.map_cons, List.nodup_cons] at h
      by_cases hp : a = k
      · rw [show dset ((a, b) :: rest) k v = (k, v) :: rest from by simp [dset, hp]]
        simp only [uniqKeys, List.map_cons, List.nodup_cons]
        exact ⟨by rw [← hp]; exact h.1, h.2⟩
      · rw [show dset ((a, b) :: rest) k v = (a, b) :: dset rest k v from by simp [dset, hp]]
        simp only [uniqKeys, List.map_cons, List.nodup_cons]
        refine ⟨?_, ih h.2⟩
        intro hmem
        rcases keys_of_dset rest k v a hmem with he | hm
        · exact hp he
        · exact h.1 hm

/-! ## C1: the scoring weight table -/

/-- C1 (counterexample): the claim says a missing risk level on a resolved
taxonomy entry carries weight 0 wherever a weight enters the scores.  For
the taxonomy entry `{"Expected": "Yes"}` (no `Risk Level` key) and a
mismatching answer, both accumulators receive weight 2, because line 68 of
`src/main.py` defaults the missing level to `'Medium'` before the weight
table is consulted. -/
theorem c1_missing_level_scores_two :
    dget [("Expected", Val.vstr "Yes")] "Risk Level" = none ∧
    (vendorFold (.varr [.vobj [("Question", .vstr "Q1"), ("Answer", .vstr "No")]])
       (.vobj [("Q1", .vobj [("Expected", .vstr "Yes")])]) "V" "V").maxPossibleScore = 2 ∧
    (vendorFold (.varr [.vobj [("Question", .vstr "Q1"), ("Answer", .vstr "No")]])
       (.vobj [("Q1", .vobj [("Expected", .vstr "Yes")])]) "V" "V").vendorRiskScore ≠ 0 := by
  decide

/-- C1 (amended): the weight function itself maps `High`/`Medium`/`Low` to
3/2/1 and anything else to 0, but at the scoring sites a resolved entry
with no `Risk Level` key is first defaulted to `Medium`, so it enters both
accumulators with weight 2, not 0. -/
theorem c1_weight_table :
    get_risk_score (.vstr "High") = 3 ∧ get_risk_score (.vstr "Medium") = 2 ∧
    get_risk_score (.vstr "Low") = 1 ∧
    (∀ v : Val, v ≠ .vstr "High" → v ≠ .vstr "Medium" → v ≠ .vstr "Low" →
      get_risk_score v = 0) ∧
    (∀ kvs : List (String × Val), dget kvs "Risk Level" = none →
      get_risk_score (riGet kvs "Risk Level" (.vstr "Medium")) = 2) := by
  refine ⟨rfl, rfl, rfl, ?_, ?_⟩
  · intro v h1 h2 h3
    simp [get_risk_score, h1, h2, h3]
  · intro kvs h
    simp [riGet, h, get_risk_score]

/-- Witness for `c1_weight_table` at concrete inputs. -/
theorem c1_weight_table_witness :
    get_risk_score (.vstr "banana") = 0 ∧
    get_risk_score (riGet [("Expected", Val.vstr "Yes")] "Risk Level" (.vstr "Medium")) = 2 :=
  ⟨c1_weight_table.2.2.2.1 (.vstr "banana") (by decide) (by decide) (by decide),
   c1_weight_table.2.2.2.2 [("Expected", Val.vstr "Yes")] (by decide)⟩

/-! ## C2: the percentage formula -/

/-- C2: the returned `vendor_risk_score` is `100 * vendor_risk_score /
max_possible_score` rounded to two decimals when `max_possible_score > 0`,
and `0` otherwise (lines 79-83). -/
theorem c2_percentage_formula (data risk_data : Val) (vendor fname : String) :
    (process_vendor_data data risk_data vendor fname).vendor_risk_score =
      if (vendorFold data risk_data vendor fname).maxPossibleScore > 0
      then round2 (100 * ((vendorFold data risk_data vendor fname).vendorRiskScore : Rat) /
        ((vendorFold data risk_data vendor fname).maxPossibleScore : Rat))
      else 0 := by
  unfold process_vendor_data
  by_cases h : (vendorFold data risk_data vendor fname).maxPossibleScore > 0
  · simp only [h, if_true]
    congr 1
    ring
  · simp only [h, if_false]
    decide

/-! ## C8: empty scores degrade gracefully -/

/-- C8: with an empty `system_risk_scores`, `calculate_metrics` does not
raise: the `max` at line 136 raises `ValueError` inside the `try`, the
handler prints a diagnostic (modelled by the `.error ()` outcome of
`calcCore`) and the empty result is returned. -/
theorem c8_empty_scores_graceful (cd : CState) (h : cd.system_risk_scores = []) :
    calculate_metrics cd = none ∧ calcCore cd = .error () := by
  have hcore : calcCore cd = .error () := by
    simp [calcCore, h, pyMaxBy, req, bind, Except.bind]
  exact ⟨by simp [calculate_metrics, hcore], hcore⟩

/-- Witness for `c8_empty_scores_graceful` at the initial accumulator. -/
theorem c8_empty_scores_graceful_witness :
    calculate_metrics initCState = none ∧ calcCore initCState = .error () :=
  c8_empty_scores_graceful initCState rfl

/-! ## C6: mapping-shaped vendor payloads -/

/-- C6 (failing input): the spec's Scenario A.  The taxonomy maps `Q1` to
a High-risk control expecting `Yes` and vendor `Acme`'s payload is the
mapping `{"Q1": "No"}`.  The claim (and the spec) says each key of the
mapping is treated as a question, so `missed_controls_frequency["Q1"] = 1`.
The code instead wraps the mapping as a single `{Question, Answer}` record
(line 38), reads the absent `Question`/`Answer` fields as `""`, and scores
the single question `""`: the score is coincidentally still 100, but the
missed-control entry is `""`, not `Q1`, and no `Q1` record exists.  (The
`isinstance(item, str)` branch at line 43 that the spec describes is
unreachable for mapping payloads: string items only arise from a list
payload, where `data[item]` always raises `TypeError`.) -/
theorem c6_mapping_payload_not_itemized :
    dget (combine_json_files_with_scores [("Acme", .vobj [("Q1", .vstr "No")])]
      (.vobj [("Q1", .vobj [("Risk Level", .vstr "High"),
        ("Expected", .vstr "Yes")])])).system_risk_scores "Acme" = some 100 ∧
    dget (combine_json_files_with_scores [("Acme", .vobj [("Q1", .vstr "No")])]
      (.vobj [("Q1", .vobj [("Risk Level", .vstr "High"),
        ("Expected", .vstr "Yes")])])).missed_controls_frequency "Q1" = none ∧
    dget (combine_json_files_with_scores [("Acme", .vobj [("Q1", .vstr "No")])]
      (.vobj [("Q1", .vobj [("Risk Level", .vstr "High"),
        ("Expected", .vstr "Yes")])])).missed_controls_frequency "" = some 1 ∧
    dget (combine_json_files_with_scores [("Acme", .vobj [("Q1", .vstr "No")])]
      (.vobj [("Q1", .vobj [("Risk Level", .vstr "High"),
        ("Expected", .vstr "Yes")])])).records "Q1" = none ∧
    dget (combine_json_files_with_scores [("Acme", .vobj [("Q1", .vstr "No")])]
      (.vobj [("Q1", .vobj [("Risk Level", .vstr "High"),
        ("Expected", .vstr "Yes")])])).records "" =
      some ⟨"", .vstr "Unknown", .vstr "Unknown", .vstr "Medium", .vstr "Yes",
            [("Acme", .vstr "")]⟩ := by
  decide

/-! ## C5: unresolved questions get the synthesized default -/

/-- The question a raw item would contribute, if any. -/
def itemQuestion (data item : Val) : Option String :=
  match normItem data item with
  | .okQA q _ => some q
  | _ => none

/-- The record produced for an unresolved question: the synthesized
default entry of lines 52-57 as stored by lines 59-66. -/
def defaultScoredRecord (q vendor : String) (a : Val) : Record :=
  ⟨q, .vstr "Unknown", .vstr "Unknown", .vstr "Medium", .vstr "Yes", [(vendor, a)]⟩

/-- Scoring one resolved item always stores exactly the scored record for
its question, whatever else happens afterwards. -/
theorem scoreItem_combined (kvs : List (String × Val)) (question : String) (answer : Val)
    (vendor fname : String) (s1 : VState) :
    (scoreItem kvs question answer vendor fname s1).combined =
      dset s1.combined question (mkScored kvs question vendor answer) := by
  by_cases h1 : hashable (riGet kvs "Risk Level" (.vstr "Medium")) = false <;>
  by_cases h2 : answer ≠ riGet kvs "Expected" (.vstr "Yes") <;>
  by_cases h3 : hashable (riGet kvs "Category" (.vstr "Unknown")) = false <;>
  simp [scoreItem, errOut, h1, h2, h3]

/-- Scoring one resolved item only ever appends diagnostics. -/
theorem scoreItem_diags (kvs : List (String × Val)) (question : String) (answer : Val)
    (vendor fname : String) (s1 : VState) :
    s1.diags <+: (scoreItem kvs question answer vendor fname s1).diags := by
  by_cases h1 : hashable (riGet kvs "Risk Level" (.vstr "Medium")) = false <;>
  by_cases h2 : answer ≠ riGet kvs "Expected" (.vstr "Yes") <;>
  by_cases h3 : hashable (riGet kvs "Category" (.vstr "Unknown")) = false <;>
  simp [scoreItem, errOut, h1, h2, h3]

/-- Processing one item never removes diagnostics: it only appends. -/
theorem stepItem_diags_mono (data risk_data : Val) (vendor fname : String)
    (s : VState) (item : Val) :
    s.diags <+: (stepItem data risk_data vendor fname s item).diags := by
  unfold stepItem
  split
  · exact List.prefix_refl _
  · exact List.prefix_append _ _
  · split
    · exact List.prefix_append _ _
    · split
      · split
        · exact scoreItem_diags _ _ _ vendor fname s
        · exact List.prefix_append _ _
      · refine List.IsPrefix.trans ?_ (scoreItem_diags defaultRiskInfo _ _ vendor fname
          {s with diags := s.diags ++ [.unknownQuestion _ fname]})
        exact List.prefix_append _ _

/-- Unfolding equation of `stepItem` for an item that normalizes to a
`(question, answer)` pair. -/
theorem stepItem_okQA (data risk_data : Val) (vendor fname : String)
    (s : VState) (item : Val) (q1 : String) (a : Val)
    (hn : normItem data item = .okQA q1 a) :
    stepItem data risk_data vendor fname s item =
      (match find_risk_data risk_data q1 with
       | .error _ => errOut fname s
       | .ok ri0 =>
         if truthy ri0 then
           match ri0 with
           | .vobj kvs => scoreItem kvs q1 a vendor fname s
           | _ => errOut fname s
         else
           scoreItem defaultRiskInfo q1 a vendor fname
             {s with diags := s.diags ++ [.unknownQuestion q1 fname]}) := by
  unfold stepItem
  rw [hn]

/-- Processing an item whose question differs from `q` (or that yields no
question at all) leaves the stored record of `q` unchanged. -/
theorem stepItem_combined_other (data risk_data : Val) (vendor fname : String)
    (s : VState) (item : Val) (q : String)
    (h : itemQuestion data item ≠ some q) :
    dget (stepItem data risk_data vendor fname s item).combined q = dget s.combined q := by
  cases hn : normItem data item with
  | skip => unfold stepItem; rw [hn]
  | err =>
      unfold stepItem
      rw [hn]
      rfl
  | okQA q1 a =>
      have hq : q ≠ q1 := by
        intro he
        exact h (by simp [itemQuestion, hn, he])
      rw [stepItem_okQA data risk_data vendor fname s item q1 a hn]
      cases hf : find_risk_data risk_data q1 with
      | error e => rfl
      | ok ri0 =>
          dsimp only
          by_cases ht : truthy ri0
          · rw [if_pos ht]
            cases ri0 with
            | vobj kvs => rw [scoreItem_combined, dget_dset_ne _ _ _ _ hq]
            | vnull => rfl
            | vbool b => rfl
            | vnum n => rfl
            | vstr st => rfl
            | varr xs => rfl
          · rw [if_neg ht, scoreItem_combined, dget_dset_ne _ _ _ _ hq]

/-- Folding further items whose questions all differ from `q` preserves the
stored record of `q`. -/
theorem foldItems_combined_other (data risk_data : Val) (vendor fname : String)
    (l : List Val) (s : VState) (q : String)
    (h : ∀ it ∈ l, itemQuestion data it ≠ some q) :
    dget (l.foldl (stepItem data risk_data vendor fname) s).combined q =
      dget s.combined q := by
  induction l generalizing s with
  | nil => rfl
  | cons it rest ih =>
      rw [List.foldl_cons, ih _ (fun j hj => h j (List.mem_cons_of_mem it hj)),
        stepItem_combined_other data risk_data vendor fname s it q (h it (List.mem_cons_self it rest))]

/-- Folding items only appends diagnostics. -/
theorem foldItems_diags_mono (data risk_data : Val) (vendor fname : String)
    (l : List Val) (s : VState) :
    s.diags <+: (l.foldl (stepItem data risk_data vendor fname) s).diags := by
  induction l generalizing s with
  | nil => exact List.prefix_refl _
  | cons it rest ih =>
      exact (stepItem_diags_mono data risk_data vendor fname s it).trans (ih _)

/-- An unresolved item is scored against the synthesized default entry,
after the warning diagnostic is printed. -/
theorem stepItem_unresolved (data risk_data : Val) (vendor fname : String)
    (s : VState) (item : Val) (q : String) (a : Val) (ri0 : Val)
    (hn : normItem data item = .okQA q a)
    (hf : find_risk_data risk_data q = .ok ri0)
    (ht : truthy ri0 = false) :
    stepItem data risk_data vendor fname s item =
      scoreItem defaultRiskInfo q a vendor fname
        {s with diags := s.diags ++ [.unknownQuestion q fname]} := by
  rw [stepItem_okQA data risk_data vendor fname s item q a hn, hf]
  simp [ht]

/-! The C5 theorem itself. -/

/-- C5: a question with no taxonomy match is still processed: the combined
output contains its record with category `Unknown`, sub-category `Unknown`,
risk level `Medium` and expected outcome `Yes` together with this vendor's
answer, a diagnostic naming the question and the source is emitted, and the
remaining items are still folded (the conclusion holds for the final state
after the rest of the item list is processed). -/
theorem c5_unresolved_question_defaulted (data risk_data : Val) (vendor fname : String)
    (l1 l2 : List Val) (item : Val) (q : String) (a : Val) (ri0 : Val)
    (hsplit : itemsOf data = l1 ++ item :: l2)
    (hn : normItem data item = .okQA q a)
    (hf : find_risk_data risk_data q = .ok ri0)
    (ht : truthy ri0 = false)
    (hl2 : ∀ it ∈ l2, itemQuestion data it ≠ some q) :
    dget (process_vendor_data data risk_data vendor fname).combined_data q =
      some (defaultScoredRecord q vendor a) ∧
    Diag.unknownQuestion q fname ∈ (process_vendor_data data risk_data vendor fname).diags := by
  have hcd : (process_vendor_data data risk_data vendor fname).combined_data =
      (vendorFold data risk_data vendor fname).combined := rfl
  have hdg : (process_vendor_data data risk_data vendor fname).diags =
      (vendorFold data risk_data vendor fname).diags := rfl
  have hfold : vendorFold data risk_data vendor fname =
      l2.foldl (stepItem data risk_data vendor fname)
        (stepItem data risk_data vendor fname
          (l1.foldl (stepItem data risk_data vendor fname) initVState) item) := by
    unfold vendorFold
    rw [hsplit, List.foldl_append, List.foldl_cons]
  set s1 := l1.foldl (stepItem data risk_data vendor fname) initVState with hs1
  have hstep := stepItem_unresolved data risk_data vendor fname s1 item q a ri0 hn hf ht
  have hrec : mkScored defaultRiskInfo q vendor a = defaultScoredRecord q vendor a := rfl
  constructor
  · rw [hcd, hfold, foldItems_combined_other data risk_data vendor fname l2 _ q hl2, hstep,
      scoreItem_combined, hrec]
    exact dget_dset_self _ _ _
  · rw [hdg, hfold]
    apply (foldItems_diags_mono data risk_data vendor fname l2 _).subset
    rw [hstep]
    apply (scoreItem_diags defaultRiskInfo q a vendor fname _).subset
    simp

/-- Witness for `c5_unresolved_question_defaulted`: a vendor asking the
question `Qx` that an empty taxonomy cannot resolve. -/
theorem c5_unresolved_question_defaulted_witness :
    dget (process_vendor_data (.varr [.vobj [("Question", .vstr "Qx"), ("Answer", .vstr "No")]])
      (.vobj []) "V" "V.json").combined_data "Qx" =
      some (defaultScoredRecord "Qx" "V" (.vstr "No")) ∧
    Diag.unknownQuestion "Qx" "V.json" ∈
      (process_vendor_data (.varr [.vobj [("Question", .vstr "Qx"), ("Answer", .vstr "No")]])
        (.vobj []) "V" "V.json").diags := by
  refine c5_unresolved_question_defaulted
    (.varr [.vobj [("Question", .vstr "Qx"), ("Answer", .vstr "No")]])
    (.vobj []) "V" "V.json" [] [] (.vobj [("Question", .vstr "Qx"), ("Answer", .vstr "No")])
    "Qx" (.vstr "No") (.vobj []) (by decide) (by decide) rfl (by decide) ?_
  intro it hit
  exact absurd hit (List.not_mem_nil it)

/-! ## C3: scores stay within 0..100 (with its hashability caveat) -/

/-- Closed form of `roundHalfEven` over Mathlib's floor. -/
theorem roundHalfEven_eq (x : Rat) :
    roundHalfEven x =
      if x - ⌊x⌋ < 1/2 then ⌊x⌋
      else if 1/2 < x - ⌊x⌋ then ⌊x⌋ + 1
      else if ⌊x⌋ % 2 = 0 then ⌊x⌋ else ⌊x⌋ + 1 := by
  simp only [roundHalfEven, ratFloor_eq_intFloor]

theorem roundHalfEven_ge_floor (x : Rat) : ⌊x⌋ ≤ roundHalfEven x := by
  rw [roundHalfEven_eq]
  split_ifs <;> omega

theorem roundHalfEven_le_ceil (x : Rat) : roundHalfEven x ≤ ⌈x⌉ := by
  rw [roundHalfEven_eq]
  have hfc := Int.floor_le_ceil x
  have hlt : (1:Rat)/2 ≤ x - ⌊x⌋ → ⌊x⌋ + 1 ≤ ⌈x⌉ := by
    intro hr
    have hx : (⌊x⌋ : Rat) < x := by linarith
    have := Int.lt_ceil.mpr hx
    omega
  split_ifs with h1 h2 h3
  · exact hfc
  · exact hlt (le_of_lt h2)
  · exact hfc
  · exact hlt (by linarith)

theorem round2_nonneg (x : Rat) (h : 0 ≤ x) : 0 ≤ round2 x := by
  unfold round2
  have h1 : (0:ℤ) ≤ roundHalfEven (x * 100) :=
    le_trans (Int.floor_nonneg.mpr (by linarith)) (roundHalfEven_ge_floor _)
  have h2 : (0:Rat) ≤ (roundHalfEven (x * 100) : Rat) := by exact_mod_cast h1
  positivity

theorem round2_le_100 (x : Rat) (h : x ≤ 100) : round2 x ≤ 100 := by
  unfold round2
  have h1 : roundHalfEven (x * 100) ≤ (10000 : ℤ) :=
    le_trans (roundHalfEven_le_ceil _) (Int.ceil_le.mpr (by push_cast; linarith))
  have h2 : (roundHalfEven (x * 100) : Rat) ≤ 10000 := by exact_mod_cast h1
  linarith

/-- Whether a taxonomy entry's category (with the `Unknown` default) can be
used as a dict key. -/
def entryCatHashable (e : Val) : Bool :=
  match e with
  | .vobj kvs => hashable (riGet kvs "Category" (.vstr "Unknown"))
  | _ => true

/-- Every entry of the taxonomy has a hashable category value.  This holds
for every taxonomy of the spec's data model, where categories are text;
it fails only for degenerate taxonomies whose `Category` field is a JSON
array or object. -/
def taxonomyCatsHashable (risk_data : Val) : Bool :=
  match risk_data with
  | .vobj kvs => kvs.all fun p => entryCatHashable p.2
  | .varr xs => xs.all entryCatHashable
  | _ => true

theorem dget_mem {κ α : Type} [DecidableEq κ] (l : List (κ × α)) (key : κ) (v : α)
    (h : dget l key = some v) : (key, v) ∈ l := by
  induction l with
  | nil => simp [dget] at h
  | cons p rest ih =>
      obtain ⟨a, b⟩ := p
      by_cases hp : a = key
      · subst hp
        rw [dget, if_pos rfl] at h
        cases h
        exact List.mem_cons_self _ _
      · rw [dget, if_neg hp] at h
        exact List.mem_cons_of_mem _ (ih h)

/-- A resolved entry of a hashable-category taxonomy has a hashable
category. -/
theorem find_cat_hashable (risk_data : Val) (q : String) (kvs : List (String × Val))
    (hall : taxonomyCatsHashable risk_data = true)
    (hf : find_risk_data risk_data q = .ok (.vobj kvs)) :
    hashable (riGet kvs "Category" (.vstr "Unknown")) = true := by
  cases risk_data with
  | vobj tkvs =>
      unfold find_risk_data at hf
      dsimp only at hf
      cases hd : dget tkvs q with
      | none =>
          rw [hd] at hf
          simp at hf
          cases hf
          decide
      | some v =>
          rw [hd] at hf
          simp at hf
          subst hf
          have hmem := dget_mem tkvs q (.vobj kvs) hd
          unfold taxonomyCatsHashable at hall
          have := (List.all_eq_true.mp hall) _ hmem
          simpa [entryCatHashable] using this
  | varr xs =>
      unfold find_risk_data at hf
      dsimp only at hf
      unfold taxonomyCatsHashable at hall
      induction xs with
      | nil =>
          simp [findInList] at hf
          cases hf
          decide
      | cons x rest ih =>
          cases x with
          | vobj xkvs =>
              simp only [findInList] at hf
              by_cases hq : dget xkvs "Question" = some (.vstr q)
              · rw [if_pos hq] at hf
                simp at hf
                subst hf
                have := (List.all_eq_true.mp hall) _ (List.mem_cons_self _ _)
                simpa [entryCatHashable] using this
              · rw [if_neg hq] at hf
                exact ih (by
                  rw [List.all_eq_true] at hall ⊢
                  exact fun e he => hall e (List.mem_cons_of_mem _ he)) hf
          | vnull => simp [findInList] at hf
          | vbool b => simp [findInList] at hf
          | vnum n => simp [findInList] at hf
          | vstr st => simp [findInList] at hf
          | varr ys => simp [findInList] at hf
  | vnull =>
      simp [find_risk_data] at hf
      cases hf
      decide
  | vbool b =>
      simp [find_risk_data] at hf
      cases hf
      decide
  | vnum n =>
      simp [find_risk_data] at hf
      cases hf
      decide
  | vstr st =>
      simp [find_risk_data] at hf
      cases hf
      decide

/-- Scoring one item with a hashable category keeps the accumulated risk
below the accumulated maximum: line 74 adds the same weight that line 70
added. -/
theorem scoreItem_score_le (kvs : List (String × Val)) (question : String) (answer : Val)
    (vendor fname : String) (s1 : VState)
    (hcat : hashable (riGet kvs "Category" (.vstr "Unknown")) = true)
    (h : s1.vendorRiskScore ≤ s1.maxPossibleScore) :
    (scoreItem kvs question answer vendor fname s1).vendorRiskScore ≤
      (scoreItem kvs question answer vendor fname s1).maxPossibleScore := by
  by_cases h1 : hashable (riGet kvs "Risk Level" (.vstr "Medium")) = false <;>
  by_cases h2 : answer ≠ riGet kvs "Expected" (.vstr "Yes") <;>
  simp [scoreItem, errOut, h1, h2, hcat] <;> omega

/-- One loop iteration preserves `vendor_risk_score ≤ max_possible_score`
whenever the taxonomy's categories are hashable. -/
theorem stepItem_score_le (data risk_data : Val) (vendor fname : String)
    (s : VState) (item : Val)
    (hall : taxonomyCatsHashable risk_data = true)
    (h : s.vendorRiskScore ≤ s.maxPossibleScore) :
    (stepItem data risk_data vendor fname s item).vendorRiskScore ≤
      (stepItem data risk_data vendor fname s item).maxPossibleScore := by
  cases hn : normItem data item with
  | skip => unfold stepItem; rw [hn]; exact h
  | err => unfold stepItem; rw [hn]; exact h
  | okQA q1 a =>
      rw [stepItem_okQA data risk_data vendor fname s item q1 a hn]
      cases hf : find_risk_data risk_data q1 with
      | error e => exact h
      | ok ri0 =>
          dsimp only
          by_cases ht : truthy ri0
          · rw [if_pos ht]
            cases ri0 with
            | vobj kvs =>
                exact scoreItem_score_le kvs q1 a vendor fname s
                  (find_cat_hashable risk_data q1 kvs hall hf) h
            | vnull => exact h
            | vbool b => exact h
            | vnum n => exact h
            | vstr st => exact h
            | varr xs => exact h
          · rw [if_neg ht]
            exact scoreItem_score_le defaultRiskInfo q1 a vendor fname _ (by decide) h

/-- The loop invariant over the whole item list. -/
theorem vendorFold_score_le (data risk_data : Val) (vendor fname : String)
    (hall : taxonomyCatsHashable risk_data = true) :
    (vendorFold data risk_data vendor fname).vendorRiskScore ≤
      (vendorFold data risk_data vendor fname).maxPossibleScore := by
  unfold vendorFold
  have haux : ∀ (l : List Val) (s : VState), s.vendorRiskScore ≤ s.maxPossibleScore →
      (l.foldl (stepItem data risk_data vendor fname) s).vendorRiskScore ≤
        (l.foldl (stepItem data risk_data vendor fname) s).maxPossibleScore := by
    intro l
    induction l with
    | nil => exact fun s h => h
    | cons it rest ih =>
        intro s h
        exact ih _ (stepItem_score_le data risk_data vendor fname s it hall h)
  exact haux _ initVState (le_refl 0)

/-- The per-vendor percentage is within 0..100 when the taxonomy's
categories are hashable. -/
theorem process_vendor_data_score_bounds (data risk_data : Val) (vendor fname : String)
    (hall : taxonomyCatsHashable risk_data = true) :
    0 ≤ (process_vendor_data data risk_data vendor fname).vendor_risk_score ∧
    (process_vendor_data data risk_data vendor fname).vendor_risk_score ≤ 100 := by
  have hle := vendorFold_score_le data risk_data vendor fname hall
  show 0 ≤ round2 _ ∧ round2 _ ≤ 100
  set st := vendorFold data risk_data vendor fname with hst
  by_cases hm : st.maxPossibleScore > 0
  · rw [if_pos hm]
    have hmq : (0:Rat) < (st.maxPossibleScore : Rat) := by exact_mod_cast hm
    have hvq : (0:Rat) ≤ (st.vendorRiskScore : Rat) := by positivity
    have hdiv : ((st.vendorRiskScore : Rat) / (st.maxPossibleScore : Rat)) ≤ 1 :=
      (div_le_one hmq).mpr (by exact_mod_cast hle)
    have hp0 : (0:Rat) ≤ ((st.vendorRiskScore : Rat) / (st.maxPossibleScore : Rat)) * 100 := by
      positivity
    have hp1 : ((st.vendorRiskScore : Rat) / (st.maxPossibleScore : Rat)) * 100 ≤ 100 := by
      nlinarith
    exact ⟨round2_nonneg _ hp0, round2_le_100 _ hp1⟩
  · rw [if_neg hm]
    constructor <;> decide

/-- Neither a successful nor a failing fold of one result key touches the
scores bucket. -/
def exState : Except CState CState → CState
  | .ok s => s
  | .error s => s

theorem mergeKey_srs (vendor : String) (s : CState) (kv : String × Record) :
    (exState (mergeKey vendor s kv)).system_risk_scores = s.system_risk_scores := by
  unfold mergeKey
  cases hd : dget kv.2.answers vendor with
  | none => rfl
  | some a =>
      dsimp only
      by_cases h1 : kv.1 = "system_risk_scores"
      · rw [if_pos h1]; rfl
      · rw [if_neg h1]
        by_cases h2 : kv.1 = "category_scores"
        · rw [if_pos h2]
          cases hm : (dget s.category_scores "answers").getD (.cmap []) with
          | cmap m => rfl
          | raw v => rfl
        · rw [if_neg h2]
          by_cases h3 : kv.1 = "missed_controls_frequency"
          · rw [if_pos h3]; rfl
          · rw [if_neg h3]; rfl

theorem mergeKeys_srs (vendor : String) (l : List (String × Record)) (s : CState) :
    (exState (mergeKeys vendor s l)).system_risk_scores = s.system_risk_scores := by
  induction l generalizing s with
  | nil => rfl
  | cons kv rest ih =>
      show (exState (match mergeKey vendor s kv with
        | .ok s1 => mergeKeys vendor s1 rest
        | .error s1 => .error s1)).system_risk_scores = s.system_risk_scores
      cases hm : mergeKey vendor s kv with
      | ok s1 =>
          have h1 : s1.system_risk_scores = s.system_risk_scores := by
            have := mergeKey_srs vendor s kv
            rw [hm] at this
            exact this
          rw [← h1]
          exact ih s1
      | error s1 =>
          have := mergeKey_srs vendor s kv
          rw [hm] at this
          exact this

/-- All stored vendor scores lie within 0..100. -/
def srsBounded (s : CState) : Prop :=
  ∀ v p, dget s.system_risk_scores v = some p → 0 ≤ p ∧ p ≤ 100

theorem combineStep_bounded (risk_data : Val) (s : CState) (src : String × Val)
    (hall : taxonomyCatsHashable risk_data = true)
    (h : srsBounded s) : srsBounded (combineStep risk_data s src) := by
  unfold combineStep
  dsimp only
  set res := process_vendor_data src.2 risk_data src.1 src.1 with hres
  set s0 : CState := {s with diags := s.diags ++ res.diags} with hs0
  have hs0srs : s0.system_risk_scores = s.system_risk_scores := rfl
  cases hm : mergeKeys src.1 s0 res.combined_data with
  | error s1 =>
      intro v p hget
      have h1 : s1.system_risk_scores = s.system_risk_scores := by
        have := mergeKeys_srs src.1 res.combined_data s0
        rw [hm] at this
        exact this
      exact h v p (by rw [← h1]; exact hget)
  | ok s1 =>
      intro v p hget
      have h1 : s1.system_risk_scores = s.system_risk_scores := by
        have := mergeKeys_srs src.1 res.combined_data s0
        rw [hm] at this
        exact this
      rw [show (dget (dset s1.system_risk_scores src.1 res.vendor_risk_score) v) =
        (if v = src.1 then some res.vendor_risk_score else dget s1.system_risk_scores v) from
        dget_dset _ _ _ _] at hget
      by_cases hv : v = src.1
      · rw [if_pos hv] at hget
        cases hget
        exact process_vendor_data_score_bounds src.2 risk_data src.1 src.1 hall
      · rw [if_neg hv] at hget
        exact h v p (by rw [← h1]; exact hget)

/-- C3 (amended): every vendor entry of `system_risk_scores` lies within
0..100, PROVIDED every category value in the taxonomy is hashable (as the
data model's text categories always are).  The weight accumulated into
`vendor_risk_score` on a mismatch is then always also accumulated into
`max_possible_score`. -/
theorem c3_scores_bounded (sources : List (String × Val)) (risk_data : Val)
    (hall : taxonomyCatsHashable risk_data = true) :
    ∀ v p, dget (combine_json_files_with_scores sources risk_data).system_risk_scores v =
      some p → 0 ≤ p ∧ p ≤ 100 := by
  unfold combine_json_files_with_scores
  have haux : ∀ (l : List (String × Val)) (s : CState), srsBounded s →
      srsBounded (l.foldl (combineStep risk_data) s) := by
    intro l
    induction l with
    | nil => exact fun s h => h
    | cons src rest ih =>
        intro s h
        exact ih _ (combineStep_bounded risk_data s src hall h)
  refine haux sources initCState ?_
  intro v p hget
  simp [initCState, dget] at hget

/-- Witness for `c3_scores_bounded`: the spec's Scenario A inputs. -/
theorem c3_scores_bounded_witness :
    (0:Rat) ≤ 100 ∧ (100:Rat) ≤ 100 :=
  c3_scores_bounded
    [("Acme", .varr [.vobj [("Question", .vstr "Q1"), ("Answer", .vstr "No")]])]
    (.vobj [("Q1", .vobj [("Risk Level", .vstr "High"), ("Expected", .vstr "Yes")])])
    (by decide) "Acme" 100 (by decide)

/-- C3 (counterexample): the claim as stated fails on a taxonomy whose
`Q1` entry has a JSON array as its `Category`.  Keying the per-category
accumulator by that unhashable value raises `TypeError` at line 71 AFTER
line 70 already accumulated the weight into `vendor_risk_score`, so line 74
never adds it to `max_possible_score`; a second ordinary missed High
control then yields 6/3 · 100 = 200 as the stored score. -/
theorem c3_score_above_100 :
    dget (combine_json_files_with_scores
      [("Acme", .varr [.vobj [("Question", .vstr "Q1"), ("Answer", .vstr "No")],
                       .vobj [("Question", .vstr "Q2"), ("Answer", .vstr "No")]])]
      (.vobj [("Q1", .vobj [("Category", .varr []), ("Risk Level", .vstr "High"),
                            ("Expected", .vstr "Yes")]),
              ("Q2", .vobj [("Risk Level", .vstr "High"),
                            ("Expected", .vstr "Yes")])])).system_risk_scores "Acme" =
      some 200 ∧ ¬ ((200:Rat) ≤ 100) := by
  constructor
  · decide
  · norm_num

/-! ## C4: the missed-controls frequency counts mismatched items -/

/-- The missed control one raw item contributes, if any: the item's
(stripped) question, when the item normalizes, its answer differs from the
resolved (or synthesized) expected outcome, and no exception fires before
the `missed_controls.append` at line 72. -/
def missedOfItem (data risk_data item : Val) : Option String :=
  match normItem data item with
  | .okQA q a =>
    match find_risk_data risk_data q with
    | .error _ => none
    | .ok ri0 =>
      match (if truthy ri0 then (match ri0 with | .vobj kvs => some kvs | _ => none)
             else some defaultRiskInfo) with
      | none => none
      | some kvs =>
        if hashable (riGet kvs "Risk Level" (.vstr "Medium")) = false then none
        else if a ≠ riGet kvs "Expected" (.vstr "Yes") then
          (if hashable (riGet kvs "Category" (.vstr "Unknown")) = false then none else some q)
        else none
  | _ => none

theorem scoreItem_missed (kvs : List (String × Val)) (question : String) (answer : Val)
    (vendor fname : String) (s1 : VState) :
    (scoreItem kvs question answer vendor fname s1).missedControls =
      s1.missedControls ++
      (if hashable (riGet kvs "Risk Level" (.vstr "Medium")) = false then []
       else if answer ≠ riGet kvs "Expected" (.vstr "Yes") then
         (if hashable (riGet kvs "Category" (.vstr "Unknown")) = false then [] else [question])
       else []) := by
  by_cases h1 : hashable (riGet kvs "Risk Level" (.vstr "Medium")) = false <;>
  by_cases h2 : answer ≠ riGet kvs "Expected" (.vstr "Yes") <;>
  by_cases h3 : hashable (riGet kvs "Category" (.vstr "Unknown")) = false <;>
  simp [scoreItem, errOut, h1, h2, h3]

theorem stepItem_missed (data risk_data : Val) (vendor fname : String)
    (s : VState) (item : Val) :
    (stepItem data risk_data vendor fname s item).missedControls =
      s.missedControls ++ (missedOfItem data risk_data item).toList := by
  cases hn : normItem data item with
  | skip => unfold stepItem; rw [hn]; simp [missedOfItem, hn]
  | err => unfold stepItem; rw [hn]; simp [missedOfItem, hn, errOut]
  | okQA q1 a =>
      rw [stepItem_okQA data risk_data vendor fname s item q1 a hn]
      cases hf : find_risk_data risk_data q1 with
      | error e => simp [missedOfItem, hn, hf, errOut]
      | ok ri0 =>
          dsimp only
          by_cases ht : truthy ri0
          · rw [if_pos ht]
            cases ri0 with
            | vobj kvs =>
                rw [scoreItem_missed]
                by_cases h1 : hashable (riGet kvs "Risk Level" (.vstr "Medium")) = false <;>
                by_cases h2 : a ≠ riGet kvs "Expected" (.vstr "Yes") <;>
                by_cases h3 : hashable (riGet kvs "Category" (.vstr "Unknown")) = false <;>
                simp [missedOfItem, hn, hf, ht, h1, h2, h3]
            | vnull => simp [missedOfItem, hn, hf, ht, errOut]
            | vbool b => simp [missedOfItem, hn, hf, ht, errOut]
            | vnum n => simp [missedOfItem, hn, hf, ht, errOut]
            | vstr st => simp [missedOfItem, hn, hf, ht, errOut]
            | varr xs => simp [missedOfItem, hn, hf, ht, errOut]
          · rw [if_neg ht]
            rw [scoreItem_missed]
            by_cases h2 : a ≠ riGet defaultRiskInfo "Expected" (.vstr "Yes") <;>
            simp [missedOfItem, hn, hf, ht, h2, defaultRiskInfo, riGet, dget, hashable] <;>
            by_cases ha : a = Val.vstr "Yes" <;> simp [ha]

theorem foldItems_missed (data risk_data : Val) (vendor fname : String)
    (l : List Val) (s : VState) :
    (l.foldl (stepItem data risk_data vendor fname) s).missedControls =
      s.missedControls ++ l.filterMap (missedOfItem data risk_data) := by
  induction l generalizing s with
  | nil => simp
  | cons it rest ih =>
      rw [List.foldl_cons, ih, stepItem_missed]
      cases hm : missedOfItem data risk_data it <;> simp [List.filterMap_cons, hm]

/-- The vendor's missed list is exactly the mismatched item occurrences, in
order. -/
theorem process_missed_eq (data risk_data : Val) (vendor fname : String) :
    (process_vendor_data data risk_data vendor fname).missed_controls =
      (itemsOf data).filterMap (missedOfItem data risk_data) := by
  show (vendorFold data risk_data vendor fname).missedControls = _
  unfold vendorFold
  rw [foldItems_missed]
  rfl

/-- Membership in `dset`. -/
theorem mem_dset {κ α : Type} [DecidableEq κ] (l : List (κ × α)) (k : κ) (v : α)
    (p : κ × α) (h : p ∈ dset l k v) : p = (k, v) ∨ p ∈ l := by
  induction l with
  | nil => simp [dset] at h; exact Or.inl h
  | cons hd rest ih =>
      obtain ⟨a, b⟩ := hd
      by_cases hp : a = k
      · rw [show dset ((a, b) :: rest) k v = (k, v) :: rest from by simp [dset, hp]] at h
        rcases List.mem_cons.mp h with h1 | h1
        · exact Or.inl h1
        · exact Or.inr (List.mem_cons_of_mem _ h1)
      · rw [show dset ((a, b) :: rest) k v = (a, b) :: dset rest k v from by
          simp [dset, hp]] at h
        rcases List.mem_cons.mp h with h1 | h1
        · exact Or.inr (by simp [h1])
        · rcases ih h1 with h2 | h2
          · exact Or.inl h2
          · exact Or.inr (List.mem_cons_of_mem _ h2)

/-- Every record of a vendor's own result carries exactly that vendor's
one answer entry. -/
def answersOwned (vendor : String) (l : List (String × Record)) : Prop :=
  ∀ kv ∈ l, ∃ a, kv.2.answers = [(vendor, a)]

theorem stepItem_answers_owned (data risk_data : Val) (vendor fname : String)
    (s : VState) (item : Val) (h : answersOwned vendor s.combined) :
    answersOwned vendor (stepItem data risk_data vendor fname s item).combined := by
  cases hn : normItem data item with
  | skip => unfold stepItem; rw [hn]; exact h
  | err => unfold stepItem; rw [hn]; exact h
  | okQA q1 a =>
      rw [stepItem_okQA data risk_data vendor fname s item q1 a hn]
      cases hf : find_risk_data risk_data q1 with
      | error e => exact h
      | ok ri0 =>
          dsimp only
          have hsc : ∀ kvs s1, answersOwned vendor s1.combined →
              answersOwned vendor (scoreItem kvs q1 a vendor fname s1).combined := by
            intro kvs s1 h1 kv hkv
            rw [scoreItem_combined] at hkv
            rcases mem_dset _ _ _ _ hkv with h2 | h2
            · exact ⟨a, by rw [h2]; rfl⟩
            · exact h1 kv h2
          by_cases ht : truthy ri0
          · rw [if_pos ht]
            cases ri0 with
            | vobj kvs => exact hsc kvs s h
            | vnull => exact h
            | vbool b => exact h
            | vnum n => exact h
            | vstr st => exact h
            | varr xs => exact h
          · rw [if_neg ht]
            exact hsc defaultRiskInfo _ h

theorem process_answers_owned (data risk_data : Val) (vendor fname : String) :
    answersOwned vendor (process_vendor_data data risk_data vendor fname).combined_data := by
  show answersOwned vendor (vendorFold data risk_data vendor fname).combined
  unfold vendorFold
  have haux : ∀ (l : List Val) (s : VState), answersOwned vendor s.combined →
      answersOwned vendor (l.foldl (stepItem data risk_data vendor fname) s).combined := by
    intro l
    induction l with
    | nil => exact fun s h => h
    | cons it rest ih =>
        exact fun s h => ih _ (stepItem_answers_owned data risk_data vendor fname s it h)
  exact haux _ initVState (fun kv hkv => absurd hkv (List.not_mem_nil kv))

/-- The two reserved bucket names whose collision with a question key makes
the fold raise (see C10: `category_scores` does NOT raise). -/
def raisingName (k : String) : Bool :=
  k = "system_risk_scores" || k = "missed_controls_frequency"

/-- No vendor's result contains a question named like one of the two
raising buckets, so every vendor's fold completes. -/
def noRaisingQuestions (sources : List (String × Val)) (risk_data : Val) : Bool :=
  sources.all fun src =>
    (process_vendor_data src.2 risk_data src.1 src.1).combined_data.all fun kv =>
      !(raisingName kv.1)

/-- The `answers` slot of the `category_scores` bucket, when present, is a
dict (never a raw value) — true in every reachable accumulator state. -/
def catsAnswersOk (s : CState) : Prop :=
  ∀ e, dget s.category_scores "answers" = some e → ∃ m, e = CatsEntry.cmap m

/-- The answer stored for vendor `w` under question `q` in the combined
accumulator. -/
def answerOf (s : CState) (q w : String) : Option Val :=
  (dget s.records q).bind fun r => dget r.answers w

theorem mergeKey_ok_of (vendor : String) (s : CState) (kv : String × Record)
    (hk : raisingName kv.1 = false) (ha : ∃ a, kv.2.answers = [(vendor, a)])
    (hca : catsAnswersOk s) :
    ∃ s1, mergeKey vendor s kv = .ok s1 ∧
      s1.missed_controls_frequency = s.missed_controls_frequency ∧
      s1.system_risk_scores = s.system_risk_scores ∧
      catsAnswersOk s1 ∧
      s1.diags = s.diags ∧
      (∀ q, q ≠ kv.1 → dget s1.records q = dget s.records q) ∧
      (kv.1 ≠ "category_scores" →
        ∃ a, dget kv.2.answers vendor = some a ∧ answerOf s1 kv.1 vendor = some a) := by
  obtain ⟨a, hae⟩ := ha
  have hdg : dget kv.2.answers vendor = some a := by rw [hae]; simp [dget]
  simp only [raisingName, Bool.or_eq_false_iff, decide_eq_false_iff_not] at hk
  unfold mergeKey
  rw [hdg]
  dsimp only
  rw [if_neg hk.1]
  by_cases h2 : kv.1 = "category_scores"
  · rw [if_pos h2]
    cases hm : (dget s.category_scores "answers").getD (.cmap []) with
    | cmap m =>
        refine ⟨_, rfl, rfl, rfl, ?_, rfl, fun q hq => rfl, fun hns => absurd h2 hns⟩
        intro e he
        rw [dget_dset_ne _ _ _ _ (by decide), dget_dset_ne _ _ _ _ (by decide),
            dget_dset_ne _ _ _ _ (by decide), dget_dset_ne _ _ _ _ (by decide),
            dget_dset_ne _ _ _ _ (by decide), dget_dset_self] at he
        cases he
        exact ⟨_, rfl⟩
    | raw v =>
        exfalso
        cases hd : dget s.category_scores "answers" with
        | none => rw [hd] at hm; simp at hm
        | some e =>
            rw [hd] at hm
            simp at hm
            obtain ⟨m, hm2⟩ := hca e hd
            rw [hm2] at hm
            cases hm
  · rw [if_neg h2, if_neg hk.2]
    refine ⟨_, rfl, rfl, rfl, hca, rfl, ?_, ?_⟩
    · intro q hq
      exact dget_dset_ne _ _ _ _ hq
    · intro _
      refine ⟨a, rfl, ?_⟩
      unfold answerOf
      dsimp only
      rw [dget_dset_self]
      show dget (dset ((dget s.records kv.1).getD emptyRecord).answers vendor a) vendor =
        some a
      exact dget_dset_self _ _ _

theorem mergeKeys_ok_of (vendor : String) (l : List (String × Record)) (s : CState)
    (hk : ∀ kv ∈ l, raisingName kv.1 = false) (ha : answersOwned vendor l)
    (hca : catsAnswersOk s) :
    ∃ s1, mergeKeys vendor s l = .ok s1 ∧
      s1.missed_controls_frequency = s.missed_controls_frequency ∧
      s1.system_risk_scores = s.system_risk_scores ∧
      catsAnswersOk s1 := by
  induction l generalizing s with
  | nil => exact ⟨s, rfl, rfl, rfl, hca⟩
  | cons kv rest ih =>
      obtain ⟨s1, hok, hmcf, hsrs, hca1, _, _, _⟩ :=
        mergeKey_ok_of vendor s kv (hk kv (List.mem_cons_self _ _))
          (ha kv (List.mem_cons_self _ _)) hca
      obtain ⟨s2, hok2, hmcf2, hsrs2, hca2⟩ :=
        ih (fun j hj => hk j (List.mem_cons_of_mem _ hj))
          (fun j hj => ha j (List.mem_cons_of_mem _ hj)) (s := s1) hca1
      refine ⟨s2, ?_, by rw [hmcf2, hmcf], by rw [hsrs2, hsrs], hca2⟩
      show (match mergeKey vendor s kv with
        | .ok s1 => mergeKeys vendor s1 rest
        | .error s1 => .error s1) = .ok s2
      rw [hok]
      exact hok2

theorem bumpMcf_self (mcf : List (String × Nat)) (q : String) :
    dget (bumpMcf mcf q) q = some ((dget mcf q).getD 0 + 1) := by
  unfold bumpMcf
  exact dget_dset_self _ _ _

theorem bumpMcf_other (mcf : List (String × Nat)) (a q : String) (h : q ≠ a) :
    dget (bumpMcf mcf a) q = dget mcf q := by
  unfold bumpMcf
  exact dget_dset_ne _ _ _ _ h

theorem bumps_val (l : List String) (mcf : List (String × Nat)) (q : String) :
    (dget (l.foldl bumpMcf mcf) q).getD 0 = (dget mcf q).getD 0 + l.count q := by
  induction l generalizing mcf with
  | nil => simp
  | cons a rest ih =>
      rw [List.foldl_cons, ih]
      by_cases hq : q = a
      · subst hq
        rw [bumpMcf_self]
        simp [List.count_cons]
        omega
      · rw [bumpMcf_other _ _ _ hq]
        simp [List.count_cons, hq]

theorem bumps_none (l : List String) (mcf : List (String × Nat)) (q : String) :
    dget (l.foldl bumpMcf mcf) q = none ↔ dget mcf q = none ∧ l.count q = 0 := by
  induction l generalizing mcf with
  | nil => simp
  | cons a rest ih =>
      rw [List.foldl_cons, ih]
      by_cases hq : q = a
      · subst hq
        rw [bumpMcf_self]
        simp [List.count_cons]
      · rw [bumpMcf_other _ _ _ hq]
        simp [List.count_cons, hq]

/-- Total mismatched item occurrences for question `q` over all sources. -/
def totalMisses (sources : List (String × Val)) (risk_data : Val) (q : String) : Nat :=
  (sources.map fun src =>
    ((process_vendor_data src.2 risk_data src.1 src.1).missed_controls.count q)).sum

theorem combineStep_mcf (risk_data : Val) (s : CState) (src : String × Val) (q : String)
    (hk : ∀ kv ∈ (process_vendor_data src.2 risk_data src.1 src.1).combined_data,
      raisingName kv.1 = false)
    (hca : catsAnswersOk s) :
    ((dget (combineStep risk_data s src).missed_controls_frequency q).getD 0 =
      (dget s.missed_controls_frequency q).getD 0 +
        (process_vendor_data src.2 risk_data src.1 src.1).missed_controls.count q) ∧
    (dget (combineStep risk_data s src).missed_controls_frequency q = none ↔
      (dget s.missed_controls_frequency q = none ∧
        (process_vendor_data src.2 risk_data src.1 src.1).missed_controls.count q = 0)) ∧
    catsAnswersOk (combineStep risk_data s src) := by
  unfold combineStep
  dsimp only
  set res := process_vendor_data src.2 risk_data src.1 src.1 with hres
  set s0 : CState := {s with diags := s.diags ++ res.diags} with hs0
  have hca0 : catsAnswersOk s0 := hca
  obtain ⟨s1, hok, hmcf, hsrs, hca1⟩ :=
    mergeKeys_ok_of src.1 res.combined_data s0 hk
      (process_answers_owned src.2 risk_data src.1 src.1) hca0
  rw [hok]
  have hmcf0 : s1.missed_controls_frequency = s.missed_controls_frequency := hmcf
  refine ⟨?_, ?_, ?_⟩
  · show (dget (res.missed_controls.foldl bumpMcf s1.missed_controls_frequency) q).getD 0 = _
    rw [bumps_val, hmcf0]
  · show dget (res.missed_controls.foldl bumpMcf s1.missed_controls_frequency) q = none ↔ _
    rw [bumps_none, hmcf0]
  · intro e he
    show ∃ m, e = CatsEntry.cmap m
    have he2 : dget (dset s1.category_scores src.1 (toCmap res.category_scores))
        "answers" = some e := he
    by_cases hv : "answers" = src.1
    · rw [← hv, dget_dset_self] at he2
      cases he2
      exact ⟨_, rfl⟩
    · rw [dget_dset_ne _ _ _ _ hv] at he2
      exact hca1 e he2

theorem fold_mcf (risk_data : Val) (l : List (String × Val)) (s : CState) (q : String)
    (hnr : ∀ src ∈ l, ∀ kv ∈ (process_vendor_data src.2 risk_data src.1 src.1).combined_data,
      raisingName kv.1 = false)
    (hca : catsAnswersOk s) :
    ((dget (l.foldl (combineStep risk_data) s).missed_controls_frequency q).getD 0 =
      (dget s.missed_controls_frequency q).getD 0 + totalMisses l risk_data q) ∧
    (dget (l.foldl (combineStep risk_data) s).missed_controls_frequency q = none ↔
      (dget s.missed_controls_frequency q = none ∧ totalMisses l risk_data q = 0)) ∧
    catsAnswersOk (l.foldl (combineStep risk_data) s) := by
  induction l generalizing s with
  | nil => exact ⟨by simp [totalMisses], by simp [totalMisses], hca⟩
  | cons src rest ih =>
      obtain ⟨hv1, hn1, hc1⟩ :=
        combineStep_mcf risk_data s src q (hnr src (List.mem_cons_self _ _)) hca
      obtain ⟨hv2, hn2, hc2⟩ :=
        ih (fun j hj => hnr j (List.mem_cons_of_mem _ hj)) (s := combineStep risk_data s src) hc1
      have htot : totalMisses (src :: rest) risk_data q =
          (process_vendor_data src.2 risk_data src.1 src.1).missed_controls.count q +
            totalMisses rest risk_data q := by
        simp [totalMisses]
      refine ⟨?_, ?_, hc2⟩
      · rw [List.foldl_cons, hv2, hv1, htot]
        omega
      · rw [List.foldl_cons, hn2, hn1, htot]
        constructor
        · rintro ⟨⟨a1, a2⟩, a3⟩
          exact ⟨a1, by omega⟩
        · rintro ⟨a1, a2⟩
          exact ⟨⟨a1, by omega⟩, by omega⟩

/-- C4 (amended): `missed_controls_frequency[q]` equals the TOTAL number of
processed answer items across all vendor sources whose question is `q` and
whose answer differs from the resolved expected outcome — a vendor whose
source lists the same question more than once is counted once per
occurrence, so the count can exceed the number of vendors.  (Stated under
the hypothesis that no question collides with one of the two bucket names
that abort a vendor's fold; when each vendor lists each question at most
once, the total equals the count of vendors whose answer differs.) -/
theorem c4_frequency_counts_occurrences (sources : List (String × Val)) (risk_data : Val)
    (q : String) (hnr : noRaisingQuestions sources risk_data = true) :
    (dget (combine_json_files_with_scores sources risk_data).missed_controls_frequency q =
      if totalMisses sources risk_data q = 0 then none
      else some (totalMisses sources risk_data q)) ∧
    ∀ (data : Val) (vendor fname : String),
      (process_vendor_data data risk_data vendor fname).missed_controls =
        (itemsOf data).filterMap (missedOfItem data risk_data) := by
  constructor
  · have hca0 : catsAnswersOk initCState := by
      intro e he
      simp [initCState, dget] at he
    have hnr2 : ∀ src ∈ sources,
        ∀ kv ∈ (process_vendor_data src.2 risk_data src.1 src.1).combined_data,
          raisingName kv.1 = false := by
      intro src hsrc kv hkv
      have h1 := (List.all_eq_true.mp hnr) src hsrc
      have h2 := (List.all_eq_true.mp h1) kv hkv
      simpa using h2
    obtain ⟨hval, hnone, _⟩ := fold_mcf risk_data sources initCState q hnr2 hca0
    have hinit : dget initCState.missed_controls_frequency q = none := rfl
    by_cases h0 : totalMisses sources risk_data q = 0
    · rw [if_pos h0]
      exact hnone.mpr ⟨hinit, h0⟩
    · rw [if_neg h0]
      cases hfin : dget (combine_json_files_with_scores sources
          risk_data).missed_controls_frequency q with
      | none =>
          exact absurd (hnone.mp hfin).2 h0
      | some n =>
          have : n = totalMisses sources risk_data q := by
            have h1 := hval
            rw [show (combine_json_files_with_scores sources risk_data) =
              sources.foldl (combineStep risk_data) initCState from rfl] at hfin
            rw [hfin, hinit] at h1
            simpa using h1
          rw [this]
  · exact fun data vendor fname => process_missed_eq data risk_data vendor fname

/-- Witness for `c4_frequency_counts_occurrences`: one vendor listing the
same missed High control twice yields frequency 2. -/
theorem c4_frequency_counts_occurrences_witness :
    dget (combine_json_files_with_scores
      [("V", .varr [.vobj [("Question", .vstr "Q1"), ("Answer", .vstr "No")],
                    .vobj [("Question", .vstr "Q1"), ("Answer", .vstr "No")]])]
      (.vobj [("Q1", .vobj [("Risk Level", .vstr "High"),
        ("Expected", .vstr "Yes")])])).missed_controls_frequency "Q1" = some 2 := by
  have h := (c4_frequency_counts_occurrences
    [("V", .varr [.vobj [("Question", .vstr "Q1"), ("Answer", .vstr "No")],
                  .vobj [("Question", .vstr "Q1"), ("Answer", .vstr "No")]])]
    (.vobj [("Q1", .vobj [("Risk Level", .vstr "High"), ("Expected", .vstr "Yes")])])
    "Q1" (by decide)).1
  rw [h]
  decide

/-- C4 (counterexample): the frequency CAN exceed the number of vendors.
A single vendor whose source lists the same mismatched High-risk question
twice produces `missed_controls_frequency["Q1"] = 2` although only one
vendor (whose answer differs) exists. -/
theorem c4_frequency_exceeds_vendor_count :
    dget (combine_json_files_with_scores
      [("V", .varr [.vobj [("Question", .vstr "Q1"), ("Answer", .vstr "No")],
                    .vobj [("Question", .vstr "Q1"), ("Answer", .vstr "No")]])]
      (.vobj [("Q1", .vobj [("Risk Level", .vstr "High"),
        ("Expected", .vstr "Yes")])])).missed_controls_frequency "Q1" = some 2 ∧
    [("V", Val.varr [.vobj [("Question", .vstr "Q1"), ("Answer", .vstr "No")],
                     .vobj [("Question", .vstr "Q1"), ("Answer", .vstr "No")]])].length = 1 ∧
    ¬ (2 ≤ 1) := by
  decide

/-! ## C9: merging is per-vendor isolated and per-question unique -/

theorem mergeKey_answers (vendor : String) (s : CState) (kv : String × Record)
    (w : String) (hw : w ≠ vendor) (q : String) :
    answerOf (exState (mergeKey vendor s kv)) q w = answerOf s q w := by
  unfold mergeKey
  cases hd : dget kv.2.answers vendor with
  | none => rfl
  | some a =>
      dsimp only
      by_cases h1 : kv.1 = "system_risk_scores"
      · rw [if_pos h1]; rfl
      · rw [if_neg h1]
        by_cases h2 : kv.1 = "category_scores"
        · rw [if_pos h2]
          cases hm : (dget s.category_scores "answers").getD (.cmap []) with
          | cmap m => rfl
          | raw v => rfl
        · rw [if_neg h2]
          by_cases h3 : kv.1 = "missed_controls_frequency"
          · rw [if_pos h3]; rfl
          · rw [if_neg h3]
            unfold answerOf
            dsimp only [exState]
            by_cases hq : q = kv.1
            · rw [hq, dget_dset_self]
              cases hr : dget s.records kv.1 with
              | none =>
                  show dget (dset emptyRecord.answers vendor a) w = none
                  rw [show dset emptyRecord.answers vendor a = [(vendor, a)] from rfl]
                  simp [dget, Ne.symm hw]
              | some r =>
                  show dget (dset r.answers vendor a) w = dget r.answers w
                  exact dget_dset_ne _ _ _ _ hw
            · rw [dget_dset_ne _ _ _ _ hq]

theorem mergeKeys_answers (vendor : String) (l : List (String × Record)) (s : CState)
    (w : String) (hw : w ≠ vendor) (q : String) :
    answerOf (exState (mergeKeys vendor s l)) q w = answerOf s q w := by
  induction l generalizing s with
  | nil => rfl
  | cons kv rest ih =>
      show answerOf (exState (match mergeKey vendor s kv with
        | .ok s1 => mergeKeys vendor s1 rest
        | .error s1 => .error s1)) q w = answerOf s q w
      cases hm : mergeKey vendor s kv with
      | ok s1 =>
          have h1 : answerOf s1 q w = answerOf s q w := by
            have := mergeKey_answers vendor s kv w hw q
            rw [hm] at this
            exact this
          rw [← h1]
          exact ih s1
      | error s1 =>
          have := mergeKey_answers vendor s kv w hw q
          rw [hm] at this
          exact this

theorem combineStep_answers (risk_data : Val) (s : CState) (src : String × Val)
    (w : String) (hw : w ≠ src.1) (q : String) :
    answerOf (combineStep risk_data s src) q w = answerOf s q w := by
  unfold combineStep
  dsimp only
  set res := process_vendor_data src.2 risk_data src.1 src.1 with hres
  set s0 : CState := {s with diags := s.diags ++ res.diags} with hs0
  have h0 : answerOf s0 q w = answerOf s q w := rfl
  cases hm : mergeKeys src.1 s0 res.combined_data with
  | error s1 =>
      have := mergeKeys_answers src.1 res.combined_data s0 w hw q
      rw [hm] at this
      exact this
  | ok s1 =>
      have := mergeKeys_answers src.1 res.combined_data s0 w hw q
      rw [hm] at this
      exact this

theorem mergeKey_uniq (vendor : String) (s : CState) (kv : String × Record)
    (h : uniqKeys s.records) : uniqKeys (exState (mergeKey vendor s kv)).records := by
  unfold mergeKey
  cases hd : dget kv.2.answers vendor with
  | none => exact h
  | some a =>
      dsimp only
      by_cases h1 : kv.1 = "system_risk_scores"
      · rw [if_pos h1]; exact h
      · rw [if_neg h1]
        by_cases h2 : kv.1 = "category_scores"
        · rw [if_pos h2]
          cases hm : (dget s.category_scores "answers").getD (.cmap []) with
          | cmap m => exact h
          | raw v => exact h
        · rw [if_neg h2]
          by_cases h3 : kv.1 = "missed_controls_frequency"
          · rw [if_pos h3]; exact h
          · rw [if_neg h3]
            exact uniqKeys_dset _ _ _ h

theorem mergeKeys_uniq (vendor : String) (l : List (String × Record)) (s : CState)
    (h : uniqKeys s.records) : uniqKeys (exState (mergeKeys vendor s l)).records := by
  induction l generalizing s with
  | nil => exact h
  | cons kv rest ih =>
      show uniqKeys (exState (match mergeKey vendor s kv with
        | .ok s1 => mergeKeys vendor s1 rest
        | .error s1 => .error s1)).records
      cases hm : mergeKey vendor s kv with
      | ok s1 =>
          have h1 := mergeKey_uniq vendor s kv h
          rw [hm] at h1
          exact ih s1 h1
      | error s1 =>
          have h1 := mergeKey_uniq vendor s kv h
          rw [hm] at h1
          exact h1

theorem combineStep_uniq (risk_data : Val) (s : CState) (src : String × Val)
    (h : uniqKeys s.records) : uniqKeys (combineStep risk_data s src).records := by
  unfold combineStep
  dsimp only
  set res := process_vendor_data src.2 risk_data src.1 src.1 with hres
  set s0 : CState := {s with diags := s.diags ++ res.diags} with hs0
  cases hm : mergeKeys src.1 s0 res.combined_data with
  | error s1 =>
      have h1 := mergeKeys_uniq src.1 res.combined_data s0 h
      rw [hm] at h1
      exact h1
  | ok s1 =>
      have h1 := mergeKeys_uniq src.1 res.combined_data s0 h
      rw [hm] at h1
      exact h1

/-- C9: (i) the combined mapping holds at most one record per distinct
question (its keys are unique), and (ii) folding one vendor's result never
touches any other vendor's stored answer for any question — an existing
record only has its taxonomy fields overwritten and this vendor's own
answer entry written. -/
theorem c9_fold_isolated :
    (∀ (sources : List (String × Val)) (risk_data : Val),
      uniqKeys (combine_json_files_with_scores sources risk_data).records) ∧
    (∀ (risk_data : Val) (s : CState) (src : String × Val) (w : String), w ≠ src.1 →
      ∀ q, answerOf (combineStep risk_data s src) q w = answerOf s q w) := by
  constructor
  · intro sources risk_data
    unfold combine_json_files_with_scores
    have haux : ∀ (l : List (String × Val)) (s : CState), uniqKeys s.records →
        uniqKeys (l.foldl (combineStep risk_data) s).records := by
      intro l
      induction l with
      | nil => exact fun s h => h
      | cons src rest ih =>
          exact fun s h => ih _ (combineStep_uniq risk_data s src h)
    exact haux sources initCState uniqKeys_nil
  · exact fun risk_data s src w hw q => combineStep_answers risk_data s src w hw q

/-- Witness for `c9_fold_isolated`: after vendor `W` answered `Q1`, folding
vendor `V`'s result leaves `W`'s stored answer untouched, and the combined
keys of a two-vendor run are unique. -/
theorem c9_fold_isolated_witness :
    answerOf (combineStep
      (.vobj [("Q1", .vobj [("Risk Level", .vstr "High"), ("Expected", .vstr "Yes")])])
      (combine_json_files_with_scores
        [("W", .varr [.vobj [("Question", .vstr "Q1"), ("Answer", .vstr "Yes")]])]
        (.vobj [("Q1", .vobj [("Risk Level", .vstr "High"), ("Expected", .vstr "Yes")])]))
      ("V", .varr [.vobj [("Question", .vstr "Q1"), ("Answer", .vstr "No")]])) "Q1" "W" =
    answerOf (combine_json_files_with_scores
        [("W", .varr [.vobj [("Question", .vstr "Q1"), ("Answer", .vstr "Yes")]])]
        (.vobj [("Q1", .vobj [("Risk Level", .vstr "High"), ("Expected", .vstr "Yes")])]))
      "Q1" "W" ∧
    uniqKeys (combine_json_files_with_scores
      [("W", .varr [.vobj [("Question", .vstr "Q1"), ("Answer", .vstr "Yes")]]),
       ("V", .varr [.vobj [("Question", .vstr "Q1"), ("Answer", .vstr "No")]])]
      (.vobj [("Q1", .vobj [("Risk Level", .vstr "High"),
        ("Expected", .vstr "Yes")])])).records :=
  ⟨c9_fold_isolated.2 _ _ ("V", .varr [.vobj [("Question", .vstr "Q1"),
      ("Answer", .vstr "No")]]) "W" (by decide) "Q1",
   c9_fold_isolated.1 _ _⟩

/-! ## C10: which bucket-name collisions abort a vendor's fold -/

theorem stepItem_uniq (data risk_data : Val) (vendor fname : String)
    (s : VState) (item : Val) (h : uniqKeys s.combined) :
    uniqKeys (stepItem data risk_data vendor fname s item).combined := by
  cases hn : normItem data item with
  | skip => unfold stepItem; rw [hn]; exact h
  | err => unfold stepItem; rw [hn]; exact h
  | okQA q1 a =>
      rw [stepItem_okQA data risk_data vendor fname s item q1 a hn]
      cases hf : find_risk_data risk_data q1 with
      | error e => exact h
      | ok ri0 =>
          dsimp only
          by_cases ht : truthy ri0
          · rw [if_pos ht]
            cases ri0 with
            | vobj kvs =>
                show uniqKeys (scoreItem kvs q1 a vendor fname s).combined
                rw [scoreItem_combined]
                exact uniqKeys_dset _ _ _ h
            | vnull => exact h
            | vbool b => exact h
            | vnum n => exact h
            | vstr st => exact h
            | varr xs => exact h
          · rw [if_neg ht]
            show uniqKeys (scoreItem defaultRiskInfo q1 a vendor fname _).combined
            rw [scoreItem_combined]
            exact uniqKeys_dset _ _ _ h

theorem process_uniq (data risk_data : Val) (vendor fname : String) :
    uniqKeys (process_vendor_data data risk_data vendor fname).combined_data := by
  show uniqKeys (vendorFold data risk_data vendor fname).combined
  unfold vendorFold
  have haux : ∀ (l : List Val) (s : VState), uniqKeys s.combined →
      uniqKeys (l.foldl (stepItem data risk_data vendor fname) s).combined := by
    intro l
    induction l with
    | nil => exact fun s h => h
    | cons it rest ih =>
        exact fun s h => ih _ (stepItem_uniq data risk_data vendor fname s it h)
  exact haux _ initVState uniqKeys_nil

/-- Merging a key named like one of the two raising buckets raises before
the vendor's score and frequency increments: the scores dict, the records
and the diagnostics are untouched; the frequency bucket at most gains a
zero `answers` slot. -/
theorem mergeKey_raising (vendor : String) (s : CState) (kv : String × Record)
    (ha : ∃ a, kv.2.answers = [(vendor, a)]) (hr : raisingName kv.1 = true) :
    ∃ s1, mergeKey vendor s kv = .error s1 ∧
      s1.system_risk_scores = s.system_risk_scores ∧
      (∀ q, q ≠ "answers" →
        dget s1.missed_controls_frequency q = dget s.missed_controls_frequency q) ∧
      s1.records = s.records ∧ s1.diags = s.diags := by
  obtain ⟨a, hae⟩ := ha
  have hdg : dget kv.2.answers vendor = some a := by rw [hae]; simp [dget]
  simp only [raisingName, Bool.or_eq_true, decide_eq_true_eq] at hr
  unfold mergeKey
  rw [hdg]
  dsimp only
  rcases hr with hr | hr
  · rw [if_pos hr]
    exact ⟨s, rfl, rfl, fun q hq => rfl, rfl, rfl⟩
  · rw [if_neg (by rw [hr]; decide), if_neg (by rw [hr]; decide), if_pos hr]
    refine ⟨_, rfl, rfl, ?_, rfl, rfl⟩
    intro q hq
    by_cases hs : (dget s.missed_controls_frequency "answers").isSome
    · rw [if_pos hs]
    · rw [if_neg hs]
      exact dget_dset_ne _ _ _ _ hq

/-- Folding the keys of a vendor result whose names all avoid the two
raising buckets succeeds and is fully characterized: buckets untouched,
records outside the key set untouched, each non-`category_scores` key's
record holding this vendor's answer. -/
theorem mergeKeys_pre (vendor : String) (l : List (String × Record)) (s : CState)
    (hk : ∀ kv ∈ l, raisingName kv.1 = false) (ha : answersOwned vendor l)
    (hca : catsAnswersOk s) (hnd : (l.map Prod.fst).Nodup) :
    ∃ s1, mergeKeys vendor s l = .ok s1 ∧
      s1.missed_controls_frequency = s.missed_controls_frequency ∧
      s1.system_risk_scores = s.system_risk_scores ∧
      catsAnswersOk s1 ∧ s1.diags = s.diags ∧
      (∀ q, q ∉ l.map Prod.fst → dget s1.records q = dget s.records q) ∧
      (∀ kv ∈ l, kv.1 ≠ "category_scores" →
        ∃ a, dget kv.2.answers vendor = some a ∧ answerOf s1 kv.1 vendor = some a) := by
  induction l generalizing s with
  | nil => exact ⟨s, rfl, rfl, rfl, hca, rfl, fun q hq => rfl,
      fun kv hkv => absurd hkv (List.not_mem_nil kv)⟩
  | cons kv rest ih =>
      simp only [List.map_cons, List.nodup_cons] at hnd
      obtain ⟨sA, hok, hmcf, hsrs, hcaA, hdiag, hrecoth, hwritten⟩ :=
        mergeKey_ok_of vendor s kv (hk kv (List.mem_cons_self _ _))
          (ha kv (List.mem_cons_self _ _)) hca
      obtain ⟨sB, hok2, hmcf2, hsrs2, hcaB, hdiag2, hrecoth2, hwritten2⟩ :=
        ih (fun j hj => hk j (List.mem_cons_of_mem _ hj))
          (fun j hj => ha j (List.mem_cons_of_mem _ hj)) (s := sA) hcaA hnd.2
      refine ⟨sB, ?_, by rw [hmcf2, hmcf], by rw [hsrs2, hsrs], hcaB,
        by rw [hdiag2, hdiag], ?_, ?_⟩
      · show (match mergeKey vendor s kv with
          | .ok s1 => mergeKeys vendor s1 rest
          | .error s1 => .error s1) = .ok sB
        rw [hok]
        exact hok2
      · intro q hq
        simp only [List.map_cons, List.mem_cons] at hq
        push_neg at hq
        rw [hrecoth2 q hq.2, hrecoth q hq.1]
      · intro j hj hjc
        rcases List.mem_cons.mp hj with hj1 | hj1
        · subst hj1
          obtain ⟨a, haeq, hansA⟩ := hwritten hjc
          refine ⟨a, haeq, ?_⟩
          unfold answerOf at hansA ⊢
          rw [hrecoth2 j.1 hnd.1]
          exact hansA
        · exact hwritten2 j hj1 hjc

/-- Folding keys over an appended list continues from the state of a
successfully folded first part. -/
theorem mergeKeys_append (vendor : String) (l1 l2 : List (String × Record))
    (s s1 : CState) (h : mergeKeys vendor s l1 = .ok s1) :
    mergeKeys vendor s (l1 ++ l2) = mergeKeys vendor s1 l2 := by
  induction l1 generalizing s with
  | nil =>
      cases h
      rfl
  | cons kv rest ih =>
      rw [List.cons_append]
      show (match mergeKey vendor s kv with
        | .ok sA => mergeKeys vendor sA (rest ++ l2)
        | .error sA => .error sA) = mergeKeys vendor s1 l2
      have h1 : (match mergeKey vendor s kv with
        | .ok sA => mergeKeys vendor sA rest
        | .error sA => .error sA) = .ok s1 := h
      cases hm : mergeKey vendor s kv with
      | ok sA =>
          rw [hm] at h1
          exact ih sA h1
      | error sA =>
          rw [hm] at h1
          cases h1

/-- C10 (amended): a question named `system_risk_scores` or
`missed_controls_frequency` makes the vendor's fold raise partway (KeyError
/ TypeError at the answers-merge line): questions merged before it keep
this vendor's answers, while the vendor's `system_risk_scores` entry and
missed-control increments are absent and the caught exception's diagnostic
is printed — the merge is not atomic.  A question named `category_scores`
does NOT raise (its writes silently corrupt that bucket and the fold
completes; see the counterexample). -/
theorem c10_raising_names_abort_partially (risk_data : Val) (s : CState) (v : String)
    (data : Val) (l1 l2 : List (String × Record)) (q0 : String) (r0 : Record)
    (hsplit : (process_vendor_data data risk_data v v).combined_data = l1 ++ (q0, r0) :: l2)
    (hl1 : ∀ kv ∈ l1, raisingName kv.1 = false)
    (hq0 : raisingName q0 = true)
    (hca : catsAnswersOk s) :
    (combineStep risk_data s (v, data)).system_risk_scores = s.system_risk_scores ∧
    (∀ q, q ≠ "answers" →
      dget (combineStep risk_data s (v, data)).missed_controls_frequency q =
        dget s.missed_controls_frequency q) ∧
    (∀ kv ∈ l1, kv.1 ≠ "category_scores" →
      ∃ a, dget kv.2.answers v = some a ∧
        answerOf (combineStep risk_data s (v, data)) kv.1 v = some a) ∧
    Diag.vendorError v v ∈ (combineStep risk_data s (v, data)).diags := by
  have hown := process_answers_owned data risk_data v v
  have huniq := process_uniq data risk_data v v
  unfold combineStep
  dsimp only
  set res := process_vendor_data data risk_data v v with hres
  set s0 : CState := {s with diags := s.diags ++ res.diags} with hs0
  have hnd1 : (l1.map Prod.fst).Nodup := by
    have := huniq
    unfold uniqKeys at this
    rw [hsplit, List.map_append] at this
    exact this.of_append_left
  obtain ⟨s1, hok1, hmcf1, hsrs1, hca1, hdiag1, hrecoth1, hwritten1⟩ :=
    mergeKeys_pre v l1 s0
      hl1 (fun kv hkv => hown kv (by rw [hsplit]; exact List.mem_append_left _ hkv))
      (show catsAnswersOk s0 from hca) hnd1
  obtain ⟨s2, herr, hsrs2, hmcf2, hrec2, hdiag2⟩ :=
    mergeKey_raising v s1 (q0, r0)
      (hown (q0, r0) (by rw [hsplit]; exact List.mem_append_right _ (List.mem_cons_self _ _)))
      hq0
  have hmerge : mergeKeys v s0 res.combined_data = .error s2 := by
    rw [hsplit, mergeKeys_append v l1 _ s0 s1 hok1]
    show (match mergeKey v s1 (q0, r0) with
      | .ok sA => mergeKeys v sA l2
      | .error sA => .error sA) = .error s2
    rw [herr]
  rw [hmerge]
  refine ⟨?_, ?_, ?_, ?_⟩
  · show s2.system_risk_scores = s.system_risk_scores
    rw [hsrs2, hsrs1]
  · intro q hq
    show dget s2.missed_controls_frequency q = dget s.missed_controls_frequency q
    rw [hmcf2 q hq, hmcf1]
  · intro kv hkv hkc
    obtain ⟨a, haeq, hans⟩ := hwritten1 kv hkv hkc
    refine ⟨a, haeq, ?_⟩
    show answerOf {s2 with diags := s2.diags ++ [Diag.vendorError v v]} kv.1 v = some a
    unfold answerOf at hans ⊢
    dsimp only
    rw [hrec2]
    exact hans
  · show Diag.vendorError v v ∈ s2.diags ++ [Diag.vendorError v v]
    simp

/-- Witness for `c10_raising_names_abort_partially`: a vendor asking `A`
and then `system_risk_scores` (against the empty taxonomy) leaves the
scores bucket without its entry while `A`'s answer is merged. -/
theorem c10_raising_names_abort_partially_witness :
    (combineStep (.vobj []) initCState
      ("V", .varr [.vobj [("Question", .vstr "A"), ("Answer", .vstr "No")],
                   .vobj [("Question", .vstr "system_risk_scores"),
                          ("Answer", .vstr "No")]])).system_risk_scores =
      initCState.system_risk_scores ∧
    answerOf (combineStep (.vobj []) initCState
      ("V", .varr [.vobj [("Question", .vstr "A"), ("Answer", .vstr "No")],
                   .vobj [("Question", .vstr "system_risk_scores"),
                          ("Answer", .vstr "No")]])) "A" "V" = some (.vstr "No") := by
  have h := c10_raising_names_abort_partially (.vobj []) initCState "V"
    (.varr [.vobj [("Question", .vstr "A"), ("Answer", .vstr "No")],
            .vobj [("Question", .vstr "system_risk_scores"), ("Answer", .vstr "No")]])
    [("A", defaultScoredRecord "A" "V" (.vstr "No"))] []
    "system_risk_scores" (defaultScoredRecord "system_risk_scores" "V" (.vstr "No"))
    (by decide) (by decide) (by decide)
    (by intro e he; simp [initCState, dget] at he)
  refine ⟨h.1, ?_⟩
  obtain ⟨a, haeq, hans⟩ := h.2.2.1 ("A", defaultScoredRecord "A" "V" (.vstr "No"))
    (List.mem_cons_self _ _) (by decide)
  have ha2 : a = Val.vstr "No" := by
    rw [show dget (defaultScoredRecord "A" "V" (.vstr "No")).answers "V" =
      some (Val.vstr "No") from by decide] at haeq
    cases haeq
    rfl
  subst ha2
  exact hans

/-- C10 (counterexample): the claim says any of the three reserved names
makes the fold raise partway, leaving the vendor's `system_risk_scores`
entry absent.  A question named `category_scores` does not raise: the
vendor's fold completes, its score entry is present, and the writes have
corrupted the `category_scores` bucket instead (an `answers` slot holding
the vendor's raw answer). -/
theorem c10_category_scores_does_not_raise :
    dget (combine_json_files_with_scores
      [("V", .varr [.vobj [("Question", .vstr "category_scores"), ("Answer", .vstr "Yes")]])]
      (.vobj [])).system_risk_scores "V" = some 0 ∧
    dget (combine_json_files_with_scores
      [("V", .varr [.vobj [("Question", .vstr "category_scores"), ("Answer", .vstr "Yes")]])]
      (.vobj [])).category_scores "answers" =
      some (.cmap [(.vstr "V", .vstr "Yes")]) ∧
    (Diag.vendorError "V" "V") ∉ (combine_json_files_with_scores
      [("V", .varr [.vobj [("Question", .vstr "category_scores"), ("Answer", .vstr "Yes")]])]
      (.vobj [])).diags := by
  decide

/-! ## C7: a dataset with no misses does not yield partial metrics -/

theorem ebind_ok {α β : Type} (a : α) (f : α → Except Unit β) :
    (Except.ok a >>= f) = f a := rfl

theorem ebind_err {α β : Type} (f : α → Except Unit β) :
    ((Except.error () : Except Unit α) >>= f) = .error () := rfl

theorem pyMaxBy_isSome {α β : Type} [LinearOrder β] (g : α → β) (l : List α) (h : l ≠ []) :
    ∃ x, pyMaxBy g l = some x := by
  cases l with
  | nil => exact absurd rfl h
  | cons a rest =>
      unfold pyMaxBy
      rw [List.foldl_cons]
      have haux : ∀ (l2 : List α) (b : α), ∃ x, l2.foldl (fun acc x =>
          match acc with
          | none => some x
          | some c => if g c < g x then some x else some c) (some b) = some x := by
        intro l2
        induction l2 with
        | nil => exact fun b => ⟨b, rfl⟩
        | cons c rest2 ih =>
            intro b
            rw [List.foldl_cons]
            by_cases hc : g b < g c
            · simpa [hc] using ih c
            · simpa [hc] using ih b
      simpa using haux rest a

theorem pyMinBy_isSome {α β : Type} [LinearOrder β] (g : α → β) (l : List α) (h : l ≠ []) :
    ∃ x, pyMinBy g l = some x := by
  cases l with
  | nil => exact absurd rfl h
  | cons a rest =>
      unfold pyMinBy
      rw [List.foldl_cons]
      have haux : ∀ (l2 : List α) (b : α), ∃ x, l2.foldl (fun acc x =>
          match acc with
          | none => some x
          | some c => if g x < g c then some x else some c) (some b) = some x := by
        intro l2
        induction l2 with
        | nil => exact fun b => ⟨b, rfl⟩
        | cons c rest2 ih =>
            intro b
            rw [List.foldl_cons]
            by_cases hc : g c < g b
            · simpa [hc] using ih c
            · simpa [hc] using ih b
      simpa using haux rest a

theorem catCollect_empty (acc : List (Val × List Rat)) (cats : List (String × CatsEntry))
    (h : ∀ p ∈ cats, p.2 = CatsEntry.cmap []) :
    catCollect acc cats = .ok acc := by
  induction cats generalizing acc with
  | nil => rfl
  | cons p rest ih =>
      obtain ⟨k, e⟩ := p
      have hp : e = CatsEntry.cmap [] := h (k, e) (List.mem_cons_self _ _)
      subst hp
      show catCollect acc ((k, CatsEntry.cmap []) :: rest) = .ok acc
      rw [show catCollect acc ((k, CatsEntry.cmap []) :: rest) =
        catCollect acc rest from rfl]
      exact ih _ (fun j hj => h j (List.mem_cons_of_mem _ hj))

/-- C7 (amended): for a dataset with at least one vendor in
`system_risk_scores` but no vendor having any accumulated category score
(as is the case whenever no answer ever mismatched during processing),
`calculate_metrics` returns the EMPTY result — no metrics at all — because
the unguarded `max` over the empty category-average map at line 159 raises
inside the `try` and the handler returns `{}`.  It does not return a
populated result with empty `highest_risk_control`/`lowest_risk_control`. -/
theorem c7_no_misses_empty_result (cd : CState)
    (h1 : cd.system_risk_scores ≠ [])
    (h2 : ∀ p ∈ cd.category_scores, p.2 = CatsEntry.cmap []) :
    calcCore cd = .error () ∧ calculate_metrics cd = none := by
  have hcore : calcCore cd = .error () := by
    obtain ⟨hv, hhv⟩ := pyMaxBy_isSome (fun p => p.2) cd.system_risk_scores h1
    obtain ⟨lv, hlv⟩ := pyMinBy_isSome (fun p => p.2) cd.system_risk_scores h1
    unfold calcCore
    rw [show req ((pyMaxBy (fun p => p.2) cd.system_risk_scores).map (fun p => p.1)) =
      .ok hv.1 from by rw [hhv]; rfl]
    rw [ebind_ok]
    rw [show req ((pyMinBy (fun p => p.2) cd.system_risk_scores).map (fun p => p.1)) =
      .ok lv.1 from by rw [hlv]; rfl]
    rw [ebind_ok]
    cases hcs : controlScores cd with
    | error e =>
        cases e
        rw [ebind_err]
    | ok cs =>
        rw [ebind_ok]
        rw [catCollect_empty [] cd.category_scores h2, ebind_ok]
        rfl
  exact ⟨hcore, by unfold calculate_metrics; rw [hcore]⟩

/-- Witness for `c7_no_misses_empty_result`: one vendor whose only answer
matches the expected outcome. -/
theorem c7_no_misses_empty_result_witness :
    calculate_metrics (combine_json_files_with_scores
      [("V", .varr [.vobj [("Question", .vstr "Q1"), ("Answer", .vstr "Yes")]])]
      (.vobj [("Q1", .vobj [("Risk Level", .vstr "High"),
        ("Expected", .vstr "Yes")])])) = none :=
  (c7_no_misses_empty_result
    (combine_json_files_with_scores
      [("V", .varr [.vobj [("Question", .vstr "Q1"), ("Answer", .vstr "Yes")]])]
      (.vobj [("Q1", .vobj [("Risk Level", .vstr "High"), ("Expected", .vstr "Yes")])]))
    (by decide) (by decide)).2

/-- C7 (counterexample): a combined dataset with one vendor in
`system_risk_scores` and no mismatched answer anywhere, on which
`calculate_metrics` returns the empty result `{}` (`none`) rather than a
populated result whose control extremes are empty. -/
theorem c7_no_misses_counterexample :
    dget (combine_json_files_with_scores
      [("V", .varr [.vobj [("Question", .vstr "Q1"), ("Answer", .vstr "Yes")]])]
      (.vobj [("Q1", .vobj [("Risk Level", .vstr "High"),
        ("Expected", .vstr "Yes")])])).system_risk_scores "V" = some 0 ∧
    ((combine_json_files_with_scores
      [("V", .varr [.vobj [("Question", .vstr "Q1"), ("Answer", .vstr "Yes")]])]
      (.vobj [("Q1", .vobj [("Risk Level", .vstr "High"),
        ("Expected", .vstr "Yes")])])).records.all fun qr =>
        qr.2.answers.all fun wa => wa.2 = qr.2.expected_outcome) = true ∧
    calculate_metrics (combine_json_files_with_scores
      [("V", .varr [.vobj [("Question", .vstr "Q1"), ("Answer", .vstr "Yes")]])]
      (.vobj [("Q1", .vobj [("Risk Level", .vstr "High"),
        ("Expected", .vstr "Yes")])])) = none := by
  decide
